import Mathlib

/-!
Shallow embedding of the retrieval / ranking / parsing core of the dining-bot
backend (src/backend/app/core/{text_to_sql,semantic_retrieval,retrieval,query_parser}.py),
together with theorems settling the frozen claims about it.

Strings are modelled as `List Char` (the Python code only manipulates ASCII SQL
text; Python `str.lower`/`str.upper`/`\w`/`\s` are modelled on the ASCII range).
Python `float` is modelled as `ℚ` (the code only performs order comparisons and
additions of small decimal constants, where rationals are faithful).
Dates are modelled as `Nat` day numbers.  External calls (OpenAI chat /
embedding, the database connection) are modelled by explicit parameters:
the result of a model call is a parameter, an external failure is a `Bool`
flag, and executing a SQL statement is modelled by its predicate semantics
over the in-memory table.
-/

namespace DiningBot

/- The Batteries rational arithmetic definitions are `@[irreducible]`, which
blocks elaboration-time evaluation of closed score computations in witnesses;
they are restored to normal transparency for this file only (the kernel is
unaffected, it ignores reducibility attributes). -/
set_option allowUnsafeReducibility true

attribute [local semireducible] Rat.add Rat.sub Rat.mul Rat.div Rat.inv

/-! ## Character and string utilities (ASCII models of the Python primitives) -/

/-- ASCII model of Python `str.lower` on a single character. -/
def lowChar (c : Char) : Char := c.toLower

/-- ASCII model of Python `str.upper` on a single character. -/
def upChar (c : Char) : Char := c.toUpper

/-- Python `s.lower()`. -/
def lowStr (s : List Char) : List Char := s.map lowChar

/-- Python `s.upper()`. -/
def upStr (s : List Char) : List Char := s.map upChar

/-- Python `s.lower()` on a Lean `String`. -/
def lowS (s : String) : String := String.mk (lowStr s.data)

/-- ASCII model of Python whitespace (the class matched by `\s` and stripped by
`str.strip()`). -/
def isSpc (c : Char) : Bool :=
  c = ' ' || c = '\t' || c = '\n' || c = '\r' || c = '\x0b' || c = '\x0c'

/-- Python `s.lstrip()`. -/
def lstripWs (s : List Char) : List Char := s.dropWhile isSpc

/-- Python `s.rstrip()`. -/
def rstripWs (s : List Char) : List Char := (s.reverse.dropWhile isSpc).reverse

/-- Python `s.strip()`. -/
def stripWs (s : List Char) : List Char := rstripWs (lstripWs s)

/-- Python `s.rstrip(";")`. -/
def rstripSemi (s : List Char) : List Char := (s.reverse.dropWhile (· = ';')).reverse

/-- The pattern `pat` occurs in `s` starting at index `i`. -/
def occursAt (pat s : List Char) (i : Nat) : Bool := pat.isPrefixOf (s.drop i)

/-- Python `pat in s` (substring test). -/
def containsSub (pat s : List Char) : Bool :=
  (List.range (s.length + 1)).any (occursAt pat s)

/-- Number of (possibly overlapping) occurrence positions of `pat` in `s`. -/
def occCount (pat s : List Char) : Nat :=
  (List.range (s.length + 1)).countP (fun i => occursAt pat s i)

/-- Python `s.find(pat)` (first occurrence position, `none` for `-1`). -/
def firstOccur (pat s : List Char) : Option Nat :=
  (List.range (s.length + 1)).find? (occursAt pat s)

/-- Character of `s` at index `i`, the NUL character out of range. -/
def charAt (s : List Char) (i : Nat) : Char := s.getD i (Char.ofNat 0)

/-- ASCII model of the regex word-character class `\w` used by `\b`. -/
def isWordChar (c : Char) : Bool :=
  ('A' ≤ c && c ≤ 'Z') || ('a' ≤ c && c ≤ 'z') || ('0' ≤ c && c ≤ '9') || c = '_'

/-- The pattern occurs at `i` delimited by regex word boundaries `\b` on both
sides (start/end of string count as boundaries). -/
def wordOccursAt (pat s : List Char) (i : Nat) : Bool :=
  occursAt pat s i &&
  (i == 0 || !isWordChar (charAt s (i - 1))) &&
  (s.length ≤ i + pat.length || !isWordChar (charAt s (i + pat.length)))

/-- Model of `re.search(r"\b" + pat + r"\b", s) is not None`. -/
def containsWord (pat s : List Char) : Bool :=
  (List.range (s.length + 1)).any (wordOccursAt pat s)

/-- Number of word-boundary-delimited occurrences of `pat` in `s`. -/
def wordCount (pat s : List Char) : Nat :=
  (List.range (s.length + 1)).countP (fun i => wordOccursAt pat s i)

/-- Model of Postgres `array_to_string(xs, ',')` (comma-joined array elements). -/
def joinComma : List String → List Char
  | [] => []
  | [x] => x.data
  | x :: xs => x.data ++ ',' :: joinComma xs

/-- Model of the SQL condition `LOWER(hay) LIKE LOWER('%needle%')` for a
wildcard-free needle: case-insensitive substring containment. -/
def likeContains (needle : String) (hay : List Char) : Bool :=
  containsSub (lowStr needle.data) (lowStr hay)

/-! ## Sanitizer (src/backend/app/core/text_to_sql.py) -/

/-- The forbidden-keyword list `FORBIDDEN_KEYWORDS` of text_to_sql.py,
including the trailing spaces carried by two entries in the source. -/
def FORBIDDEN_KEYWORDS : List String :=
  ["DELETE", "UPDATE", "DROP", "INSERT", "TRUNCATE", "ALTER", "CREATE",
   "GRANT", "REVOKE", "EXECUTE", "CALL", "COPY", "VACUUM", "ANALYZE",
   "CLUSTER", "COMMENT", "LOCK", "NOTIFY", "LISTEN", "UNLISTEN",
   "PREPARE", "DEALLOCATE", "SET ", "RESET", "SHOW", "BEGIN", "COMMIT",
   "ROLLBACK", "SAVEPOINT", "RELEASE", "DO ", "DECLARE"]

/-- Model of `re.sub(r"^```sql\s*", "", s, flags=re.IGNORECASE)`:
remove a leading code fence marker and the whitespace after it. -/
def stripFenceSqlStart (s : List Char) : List Char :=
  if lowStr (s.take 6) = "```sql".data then (s.drop 6).dropWhile isSpc else s

/-- Model of `re.sub(r"^```\s*", "", s)`. -/
def stripFenceStart (s : List Char) : List Char :=
  if s.take 3 = "```".data then (s.drop 3).dropWhile isSpc else s

/-- Model of `re.sub(r"\s*```$", "", s)` on an already right-stripped string
(the sanitizer strips `s` before this substitution runs, so `$` is exactly the
end of the string). -/
def stripFenceEnd (s : List Char) : List Char :=
  if 3 ≤ s.length && s.drop (s.length - 3) = "```".data then
    rstripWs (s.take (s.length - 3))
  else s

/-- The cleanup prefix of `sanitize_sql`: strip whitespace, remove markdown
code fences, strip again and drop trailing semicolons. -/
def cleanSql (s : List Char) : List Char :=
  stripWs (rstripSemi (stripWs (stripFenceEnd (stripFenceStart (stripFenceSqlStart (stripWs s))))))

/-- The forbidden-keyword scan of `sanitize_sql`: each keyword is stripped
(`re.escape(keyword.strip())`) and searched with word boundaries in the
uppercased statement. -/
def forbiddenHit (sqlUpper : List Char) : Option String :=
  FORBIDDEN_KEYWORDS.find? (fun k => containsWord (stripWs k.data) sqlUpper)

/-- The failsafe date-injection step of `sanitize_sql` (lines 188-206): if the
statement does not mention both `last_updated` and `current_date`, splice a
`last_updated = CURRENT_DATE` predicate into the WHERE clause, creating one
before ORDER BY / LIMIT (or at the end) if absent.  All positions are found by
plain substring search on the lowercased statement, exactly as in the source. -/
def injectDate (sql : List Char) : List Char :=
  let sqlLower := lowStr sql
  if containsSub "last_updated".data sqlLower && containsSub "current_date".data sqlLower then
    sql
  else
    match firstOccur " where ".data sqlLower with
    | some p => sql.take (p + 7) ++ "last_updated = CURRENT_DATE AND ".data ++ sql.drop (p + 7)
    | none =>
      match firstOccur " order by ".data sqlLower with
      | some p => sql.take p ++ " WHERE last_updated = CURRENT_DATE".data ++ sql.drop p
      | none =>
        match firstOccur " limit ".data sqlLower with
        | some p => sql.take p ++ " WHERE last_updated = CURRENT_DATE".data ++ sql.drop p
        | none => sql ++ " WHERE last_updated = CURRENT_DATE".data

/-- Model of `sanitize_sql` (text_to_sql.py lines 142-212).  Returns the
sanitized statement or the message of the `ValueError` raised.  Note that the
final `LIMIT` test is performed on the uppercase copy taken before injection,
as in the source (the injected text contains no `LIMIT`, so this is
inconsequential but modelled faithfully). -/
def sanitize_sql (raw : List Char) : Except String (List Char) :=
  if (cleanSql raw).isEmpty then .error "Empty SQL query generated"
  else
    match forbiddenHit (upStr (cleanSql raw)) with
    | some k => .error ("Forbidden SQL keyword detected: " ++ k)
    | none =>
      if !("SELECT".data.isPrefixOf (lstripWs (upStr (cleanSql raw)))) then
        .error "Query must be a SELECT statement"
      else if (cleanSql raw).contains ';' then
        .error "Multiple SQL statements not allowed"
      else if !(containsSub "dining_hall_menu".data (lowStr (cleanSql raw))) then
        .error "Query must reference dining_hall_menu table"
      else if containsSub "LIMIT".data (upStr (cleanSql raw)) then
        .ok (injectDate (cleanSql raw))
      else
        .ok (injectDate (cleanSql raw) ++ " LIMIT 25".data)

/-! ## Data model (src/backend/app/models.py, class DiningHallMenu) -/

/-- Row of the `dining_hall_menu` relation.  Nullable columns are `Option`;
array columns are `Option (List String)` (`none` = SQL NULL).  The embedding
vector column only matters through nullability and the external distance
function, so it is kept as an optional vector of rationals. -/
structure MenuItem where
  id : Nat
  item : String
  dining_hall : String
  last_updated : Nat
  calories : Option ℚ := none
  serving_size : Option String := none
  fat_g : Option ℚ := none
  sat_fat_g : Option ℚ := none
  trans_fat_g : Option ℚ := none
  cholesterol_mg : Option ℚ := none
  sodium_mg : Option ℚ := none
  carbs_g : Option ℚ := none
  fiber_g : Option ℚ := none
  sugars_g : Option ℚ := none
  protein_g : Option ℚ := none
  allergens : Option (List String) := none
  diet_types : Option (List String) := none
  availability_today : Option (List String) := none
  ingredients : Option (List String) := none
  embedding : Option (List ℚ) := none
deriving DecidableEq

deriving instance DecidableEq for Except

/-! ## Vector retriever (src/backend/app/core/semantic_retrieval.py, semantic_search) -/

/-- Default similarity threshold of `semantic_search` (`similarity_threshold: float = 0.3`). -/
def semanticDefaultThreshold : ℚ := 3 / 10

/-- The WHERE pre-filter that `semantic_search` builds (lines 68-114): date
equality, non-null embedding, required-diet containment via
`LOWER(array_to_string(diet_types, ',')) LIKE LOWER('%diet%')`,
excluded-allergen non-containment guarded by `allergens IS NULL OR`,
optional hall equality and meal containment.  A NULL array makes the
un-guarded `LIKE` conditions unknown, hence the row is filtered out. -/
def semanticPrefilter (requiredDiets excludedAllergens : List String)
    (hall meal : Option String) (filterDate : Nat) (r : MenuItem) : Bool :=
  r.embedding.isSome &&
  (r.last_updated == filterDate) &&
  requiredDiets.all (fun d =>
    match r.diet_types with
    | none => false
    | some ds => likeContains d (joinComma ds)) &&
  excludedAllergens.all (fun a =>
    match r.allergens with
    | none => true
    | some al => !(likeContains a (joinComma al))) &&
  (match hall with
   | none => true
   | some h => lowStr r.dining_hall.data == lowStr h.data) &&
  (match meal with
   | none => true
   | some m =>
     match r.availability_today with
     | none => false
     | some av => likeContains m (joinComma av))

/-- Model of `semantic_search`.  External effects are parameters: `pg` is
`PGVECTOR_AVAILABLE`, `embedOk` is whether `get_embedding` succeeds (it is
called OUTSIDE the try/except, so its failure propagates as `.error`),
`execOk` is whether `db.execute` succeeds (its failure is caught: log,
rollback, return `[]`), and `dist r` is the pgvector cosine distance
`embedding <=> query_embedding` of row `r`.  The SQL orders by distance
ascending (= similarity `1 - dist` descending; ties resolved stably here),
keeps rows with `1 - dist >= threshold`, and limits to `limit`; re-fetching
full records by id preserves this order (ids are primary keys). -/
def semantic_search (pg : Bool) (db : List MenuItem) (dist : MenuItem → ℚ)
    (limit : Nat) (threshold : ℚ)
    (requiredDiets excludedAllergens : List String)
    (hall meal : Option String) (currentDate : Option Nat) (today : Nat)
    (embedOk execOk : Bool) : Except String (List MenuItem) :=
  if !pg then .ok []
  else if !embedOk then .error "embedding call failed"
  else if !execOk then .ok []
  else
    let filterDate := currentDate.getD today
    let passing := db.filter (fun r =>
      semanticPrefilter requiredDiets excludedAllergens hall meal filterDate r &&
      (threshold ≤ 1 - dist r))
    .ok ((passing.insertionSort (fun a b => dist a ≤ dist b)).take limit)

/-! ## Hard-constraint check (semantic_retrieval.py, _passes_hard_constraints) -/

/-- Model of `_passes_hard_constraints` (lines 305-340): exact case-insensitive
set membership for required diets (a NULL or empty `diet_types` fails when a
diet is required), and exact case-insensitive intersection emptiness for
excluded allergens (only checked when both lists are non-empty, matching the
Python truthiness guard). -/
def _passes_hard_constraints (item : MenuItem)
    (required_diets excluded_allergens : List String) : Bool :=
  (if required_diets.isEmpty then true
   else
     match item.diet_types with
     | none => false
     | some ds =>
       if ds.isEmpty then false
       else required_diets.all (fun rd => (ds.map lowS).contains (lowS rd))) &&
  (match item.allergens with
   | none => true
   | some al =>
     if excluded_allergens.isEmpty || al.isEmpty then true
     else !(al.map lowS).any (fun a => (excluded_allergens.map lowS).contains a))

/-! ## Fusion engine (semantic_retrieval.py, hybrid_retrieve) -/

/-- Parsed-intent filters, as flattened by `_intent_filters_to_dict` and read
by `hybrid_retrieve`: the fields `diets`, `allergies`, `dining_hall`, `meal`,
`min_protein`, `max_calories` of the dictionary.  They come from the language
model (or the regex fallback), so `hybrid_retrieve` is parameterized over
them. -/
structure ParsedFilters where
  diets : List String := []
  allergies : List String := []
  dining_hall : Option String := none
  meal : Option String := none
  min_protein : Option ℚ := none
  max_calories : Option ℚ := none
deriving DecidableEq

/-- Manual UI filter selections (`manual_filters` keys `dining_halls`,
`meals`); an absent key is the empty list. -/
structure ManualFilters where
  dining_halls : List String := []
  meals : List String := []
deriving DecidableEq

/-- Candidate map entry: item id, the item, and its running score.  The Python
code keeps two insertion-ordered dicts (`results_map`, `scores`) with the same
key set; they are fused into one insertion-ordered association list. -/
abbrev Entry : Type := Nat × MenuItem × ℚ

/-- Dict write `results_map[id] = item; scores[id] = sc`: overwrite in place if
the key exists (insertion order preserved), else append. -/
def dictWrite (acc : List Entry) (id : Nat) (it : MenuItem) (sc : ℚ) : List Entry :=
  if acc.any (fun e => e.1 == id) then
    acc.map (fun e => if e.1 == id then (id, it, sc) else e)
  else acc ++ [(id, it, sc)]

/-- Step 2 of `hybrid_retrieve` (lines 225-234): iterate the text-to-SQL items
with their enumeration index, skip items failing the hard constraints, score
`1.0 - i * 0.02`. -/
def sqlLoop (diets allergens : List String) : List MenuItem → Nat → List Entry → List Entry
  | [], _, acc => acc
  | item :: rest, i, acc =>
    sqlLoop diets allergens rest (i + 1)
      (if _passes_hard_constraints item diets allergens then
         dictWrite acc item.id item (1 - i * (1 / 50 : ℚ))
       else acc)

/-- Step 3 of `hybrid_retrieve` (lines 251-257): new items from semantic search
get score `0.8 - i * 0.02`; items already present get a `+0.3` agreement
bonus (their stored item is kept). -/
def semLoop : List MenuItem → Nat → List Entry → List Entry
  | [], _, acc => acc
  | item :: rest, i, acc =>
    semLoop rest (i + 1)
      (if acc.any (fun e => e.1 == item.id) then
         acc.map (fun e => if e.1 == item.id then (e.1, e.2.1, e.2.2 + 3 / 10) else e)
       else acc ++ [(item.id, item, (4 / 5 : ℚ) - i * (1 / 50))])

/-- Step 4 of `hybrid_retrieve` (lines 259-274): soft goal boost of one item.
Protein floor: `+0.25` when met, else `+0.1` when within 75% of it; calorie
ceiling: `+0.25` when met, else `+0.1` when within 125% of it; nothing when
the bound or the item field is NULL. -/
def goalBoost (minProtein maxCalories : Option ℚ) (item : MenuItem) : ℚ :=
  (match minProtein, item.protein_g with
   | some g, some p => if g ≤ p then 1 / 4 else if g * (3 / 4) ≤ p then 1 / 10 else 0
   | _, _ => 0) +
  (match maxCalories, item.calories with
   | some g, some c => if c ≤ g then 1 / 4 else if c ≤ g * (5 / 4) then 1 / 10 else 0
   | _, _ => 0)

/-- Hall/meal resolution with manual override (lines 204-213): a single
UI-selected hall (resp. meal) replaces the parsed one, several selected ones
clear it, no selection keeps the parsed value. -/
def resolveOverride (parsedVal : Option String) (selected : List String) : Option String :=
  match selected with
  | [] => parsedVal
  | [h] => some h
  | _ => none

/-- Steps 1-3 of `hybrid_retrieve`: build the candidate map (insertion-ordered
id/item/score entries) from the text-to-SQL result and the pre-filtered
semantic search, before the soft goal boosts.  Only the hard-constraint
fields of the parsed intent enter here; the nutritional goal bounds do not. -/
def hybridCandidates (queryDiets queryAllergies : List String)
    (queryHall queryMeal : Option String)
    (sqlItems : List MenuItem) (sqlError : Option String)
    (useTextToSql useSemantic pg embedOk execOk : Bool)
    (db : List MenuItem) (dist : MenuItem → ℚ) (limit : Nat)
    (currentDate : Option Nat) (today : Nat) : Except String (List Entry) :=
  match (if useSemantic && pg then
           semantic_search pg db dist (limit * 2) semanticDefaultThreshold
             queryDiets queryAllergies.dedup queryHall queryMeal currentDate today
             embedOk execOk
         else .ok []) with
  | .error e => .error e
  | .ok semItems =>
    .ok (semLoop semItems 0
      (if useTextToSql && sqlError.isNone && !sqlItems.isEmpty then
         sqlLoop queryDiets queryAllergies.dedup sqlItems 0 []
       else []))

/-- Step 6 of `hybrid_retrieve` (lines 280-300): manual UI selections as a
final hard post-filter.  Hall matching is exact and case-sensitive (and an
empty hall name fails); meal matching is case-insensitive membership in the
item's availability list (NULL or empty availability fails). -/
def manualPostFilter (manual : Option ManualFilters) (items : List MenuItem) : List MenuItem :=
  match manual with
  | none => items
  | some mf =>
    if mf.dining_halls.isEmpty && mf.meals.isEmpty then items
    else
      items.filter (fun item =>
        (mf.dining_halls.isEmpty ||
          (!(item.dining_hall == "") && mf.dining_halls.contains item.dining_hall)) &&
        (mf.meals.isEmpty ||
          match item.availability_today with
          | none => false
          | some av =>
            if av.isEmpty then false
            else mf.meals.any (fun m => (av.map lowS).contains (lowS m))))

/-- The candidate map built by `hybrid_retrieve` from a parsed intent: the
hall/meal resolution with manual override followed by `hybridCandidates`.
Only the hard-constraint fields (`diets`, `allergies`, `dining_hall`, `meal`)
of the parsed intent are read; the nutritional goal bounds are not. -/
def hybridCandidatesOf (parsed : ParsedFilters)
    (sqlItems : List MenuItem) (sqlError : Option String)
    (manual : Option ManualFilters)
    (useTextToSql useSemantic pg embedOk execOk : Bool)
    (db : List MenuItem) (dist : MenuItem → ℚ) (limit : Nat)
    (currentDate : Option Nat) (today : Nat) : Except String (List Entry) :=
  hybridCandidates parsed.diets parsed.allergies
    (match manual with
     | none => parsed.dining_hall
     | some mf => resolveOverride parsed.dining_hall mf.dining_halls)
    (match manual with
     | none => parsed.meal
     | some mf => resolveOverride parsed.meal mf.meals)
    sqlItems sqlError useTextToSql useSemantic pg embedOk execOk
    db dist limit currentDate today

/-- Final ranking stage of `hybrid_retrieve` (steps 4-6): add the soft goal
boosts to every candidate's score, sort by score descending (Python's stable
`sorted` with `reverse=True`), truncate to `limit`, map back to items and
apply the manual post-filter. -/
def hybridRank (minProtein maxCalories : Option ℚ) (manual : Option ManualFilters)
    (limit : Nat) (entries : List Entry) : List MenuItem :=
  let boosted := entries.map (fun e =>
    (e.1, e.2.1, e.2.2 + goalBoost minProtein maxCalories e.2.1))
  let sorted := boosted.insertionSort (fun a b => b.2.2 ≤ a.2.2)
  manualPostFilter manual ((sorted.take limit).map (fun e => e.2.1))

/-- Model of `hybrid_retrieve` (lines 148-302).  The parsed intent (a language
model output) and the text-to-SQL result (a language model output executed on
the store, with `text_to_sql_retrieve` never raising) are parameters.  The
returned value is `.error` exactly when an exception escapes the function
(which happens when the vector path's embedding call fails, since
`get_embedding` runs outside any try/except). -/
def hybrid_retrieve (parsed : ParsedFilters)
    (sqlItems : List MenuItem) (sqlError : Option String)
    (manual : Option ManualFilters)
    (useTextToSql useSemantic pg embedOk execOk : Bool)
    (db : List MenuItem) (dist : MenuItem → ℚ) (limit : Nat)
    (currentDate : Option Nat) (today : Nat) : Except String (List MenuItem) :=
  match hybridCandidatesOf parsed sqlItems sqlError manual
      useTextToSql useSemantic pg embedOk execOk db dist limit currentDate today with
  | .error e => .error e
  | .ok entries => .ok (hybridRank parsed.min_protein parsed.max_calories manual limit entries)

/-! ## SQL filter builder (src/backend/app/core/retrieval.py, build_sql_filters) -/

/-- The flat filter dictionary consumed by `build_sql_filters` and produced by
`_legacy_parse_user_query` (query_parser.py). -/
structure LegacyFilters where
  dining_hall : Option String := none
  meal : Option String := none
  diets : List String := []
  allergies : List String := []
  min_protein : Option ℚ := none
  max_protein : Option ℚ := none
  min_calories : Option ℚ := none
  max_calories : Option ℚ := none
  item_name : Option String := none
  keywords : List String := []
deriving DecidableEq

/-- Model of `build_sql_filters` (retrieval.py lines 12-90) on the PostgreSQL
branch, as the conjunction of the emitted SQLAlchemy conditions evaluated on a
row.  The date-equality condition is always emitted first; the other
conditions are guarded by Python truthiness of the corresponding filter value.
A condition on a NULL column evaluates to SQL unknown, which filters the row
out. -/
def build_sql_filters (f : LegacyFilters) (currentDate : Option Nat) (today : Nat)
    (r : MenuItem) : Bool :=
  (r.last_updated == currentDate.getD today) &&
  (match f.item_name with
   | none => true
   | some t => if t.data.isEmpty then true else likeContains t r.item.data) &&
  (match f.dining_hall with
   | none => true
   | some h => if h.data.isEmpty then true else r.dining_hall == h) &&
  (match f.meal with
   | none => true
   | some m =>
     if m.data.isEmpty then true
     else match r.availability_today with
       | none => false
       | some av => likeContains (lowS m) (joinComma av)) &&
  (f.diets.isEmpty ||
    f.diets.any (fun d =>
      match r.diet_types with
      | none => false
      | some ds => likeContains d (joinComma ds))) &&
  (f.allergies.all (fun a =>
    match r.allergens with
    | none => false
    | some al => !(likeContains a (joinComma al)))) &&
  (match f.min_calories with
   | none => true
   | some lo => match r.calories with
     | none => false
     | some c => lo ≤ c) &&
  (match f.max_calories with
   | none => true
   | some hi => match r.calories with
     | none => false
     | some c => c ≤ hi)

/-! ## Intent parser data model (src/backend/app/core/query_parser.py) -/

/-- The `intent_type` literal of `SearchIntent`. -/
inductive IntentType where
  | factual_lookup
  | semantic_search
  | hybrid
deriving DecidableEq

/-- Pydantic `SearchFilters`.  The nutritional-constraints dictionary is an
insertion-ordered association list with unique keys. -/
structure SearchFilters where
  dining_halls : Option (List String) := none
  meals : Option (List String) := none
  dietary_restrictions : Option (List String) := none
  allergens_to_exclude : Option (List String) := none
  nutritional_constraints : Option (List (String × ℚ)) := none
  sort_by : Option String := none
deriving DecidableEq

/-- Pydantic `SearchIntent`.  The null-safety guard at the top of
`_apply_portion_scaling` treats `filters` as possibly missing. -/
structure SearchIntent where
  intent_type : IntentType
  search_query : String
  filters : Option SearchFilters := none
  reasoning : String := ""
deriving DecidableEq

/-- Python dict read `d.get(k)`. -/
def dictGet (d : List (String × ℚ)) (k : String) : Option ℚ :=
  (d.find? (fun kv => kv.1 == k)).map (fun kv => kv.2)

/-- Python dict write `d[k] = v`: overwrite in place, else append. -/
def dictSet (d : List (String × ℚ)) (k : String) (v : ℚ) : List (String × ℚ) :=
  if d.any (fun kv => kv.1 == k) then
    d.map (fun kv => if kv.1 == k then (k, v) else kv)
  else d ++ [(k, v)]

/-- Model of `_apply_portion_scaling` (query_parser.py lines 151-169): clamp
`min_protein` (values at or above 15 become 10, values below 8 become 8),
default `sort_by` to `protein_desc` when a protein floor is present, and
normalize an empty constraints dictionary back to `None`. -/
def _apply_portion_scaling (intent : SearchIntent) : SearchIntent :=
  let f := intent.filters.getD {}
  let nc := f.nutritional_constraints.getD []
  let minP := dictGet nc "min_protein"
  let nc1 := match minP with
    | none => nc
    | some v =>
      if 15 ≤ v then dictSet nc "min_protein" 10
      else if v < 8 then dictSet nc "min_protein" 8
      else nc
  let sortBy := match minP with
    | none => f.sort_by
    | some _ => if f.sort_by.isNone then some "protein_desc" else f.sort_by
  { intent with
    filters := some
      { f with
        nutritional_constraints := if nc1.isEmpty then none else some nc1
        sort_by := sortBy } }

/-! ## Legacy regex parser (query_parser.py, _legacy_parse_user_query) -/

/-- The user-profile dictionary read by the parsers: keys `diets`,
`allergies`, `goal`. -/
structure UserProfile where
  diets : List String := []
  allergies : List String := []
  goal : Option String := none
deriving DecidableEq

/-- Python `str.capitalize()` (ASCII): first character uppercased, the rest
lowercased. -/
def capitalizeStr (s : String) : String :=
  match s.data with
  | [] => ""
  | c :: r => String.mk (upChar c :: r.map lowChar)

/-- The apostrophe character (used by the meal-name literal of the source). -/
def apos : Char := Char.ofNat 39

/-- The meal-period names scanned by the legacy parser, in source order. -/
def legacyMeals : List String :=
  ["breakfast", "lunch", "dinner", "late night", "brunch",
   "grab" ++ String.mk [apos] ++ " n go"]

/-- The dining-hall names scanned by the legacy parser, in source order. -/
def legacyHalls : List String := ["berkshire", "worcester", "franklin", "hampshire"]

/-- The diet-keyword table of the legacy parser, in source (insertion) order. -/
def legacyDietKeywords : List (String × String) :=
  [("vegan", "Plant Based"), ("plant based", "Plant Based"),
   ("plant-based", "Plant Based"), ("vegetarian", "Vegetarian"),
   ("halal", "Halal"), ("kosher", "Kosher"),
   ("gluten-free", "Gluten-Free"), ("gluten free", "Gluten-Free")]

/-- Model of `re.search(a + r"\s+" + b, s) is not None`: an occurrence of `a`,
one or more whitespace characters, then `b` (which never starts with
whitespace here, so maximal munch is exact). -/
def matchKwSpKw (a b : String) (s : List Char) : Bool :=
  (List.range (s.length + 1)).any (fun i =>
    a.data.isPrefixOf (s.drop i) &&
    (match s.drop (i + a.data.length) with
     | [] => false
     | c :: _ => isSpc c &&
         b.data.isPrefixOf ((s.drop (i + a.data.length)).dropWhile isSpc)))

/-- Numeric value of a digit run. -/
def digitsVal (ds : List Char) : Nat := ds.foldl (fun n c => n * 10 + (c.toNat - 48)) 0

/-- Match of `(\d+)\s*g\s*protein` starting at index `i`, returning the
captured number.  The digit run is maximal (regex backtracking cannot shorten
it because a digit is neither whitespace nor `g`). -/
def gramsProteinAt (s : List Char) (i : Nat) : Option Nat :=
  let rest := s.drop i
  let digits := rest.takeWhile Char.isDigit
  if digits.isEmpty then none
  else
    match (rest.drop digits.length).dropWhile isSpc with
    | 'g' :: r2 =>
      if "protein".data.isPrefixOf (r2.dropWhile isSpc) then some (digitsVal digits)
      else none
    | _ => none

/-- Model of `re.search(r"(\d+)\s*g\s*protein", s)`: leftmost match. -/
def searchGramsProtein (s : List Char) : Option Nat :=
  (List.range (s.length + 1)).findSome? (gramsProteinAt s)

/-- Match of `(\d+)\s+calories?` starting at index `i`. -/
def caloriesNumAt (s : List Char) (i : Nat) : Option Nat :=
  let rest := s.drop i
  let digits := rest.takeWhile Char.isDigit
  if digits.isEmpty then none
  else
    match rest.drop digits.length with
    | [] => none
    | c :: _ =>
      if isSpc c &&
         "calorie".data.isPrefixOf ((rest.drop digits.length).dropWhile isSpc) then
        some (digitsVal digits)
      else none

/-- Model of `re.search(r"(\d+)\s+calories?", s)`: leftmost match. -/
def searchCaloriesNum (s : List Char) : Option Nat :=
  (List.range (s.length + 1)).findSome? (caloriesNumAt s)

/-- The protein-pattern cascade of the legacy parser (query_parser.py lines
72-85): first matching pattern wins. -/
def queryMinProtein (qLower : List Char) : Option ℚ :=
  if matchKwSpKw "high" "protein" qLower then some 20
  else if matchKwSpKw "protein" "rich" qLower then some 20
  else if matchKwSpKw "best" "protein" qLower then some 15
  else (searchGramsProtein qLower).map (fun n => (n : ℚ))

/-- The calorie-pattern cascade of the legacy parser (lines 87-98). -/
def queryMaxCalories (qLower : List Char) : Option ℚ :=
  if matchKwSpKw "low" "calorie" qLower then some 400
  else (searchCaloriesNum qLower).map (fun n => (n : ℚ))

/-- The query-scanning part of `_legacy_parse_user_query` (lines 33-103),
before the profile merge. -/
def legacyQueryFilters (query : String) : LegacyFilters :=
  let q := lowStr query.data
  { dining_hall := (legacyHalls.find? (fun h => containsSub h.data q)).map capitalizeStr
    meal := (legacyMeals.find? (fun m => containsSub m.data q)).map lowS
    diets := legacyDietKeywords.foldl
      (fun acc kv => if containsSub kv.1.data q then acc ++ [kv.2] else acc) []
    allergies := []
    min_protein := queryMinProtein q
    max_calories := queryMaxCalories q
    keywords := ["best", "top", "recommend", "find", "where", "what"].filter
      (fun w => containsSub w.data q) }

/-- Profile-diet merge of `_legacy_parse_user_query` (lines 106-108): profile
diets are unioned in when present (the Python `list(set(...))` order is
unspecified; first-occurrence order is used here, which no downstream
consumer distinguishes). -/
def mergeDiets (base : LegacyFilters) (p : UserProfile) : LegacyFilters :=
  if p.diets.isEmpty then base else { base with diets := (base.diets ++ p.diets).dedup }

/-- Profile-allergy merge (lines 110-111): profile allergies replace the
(always empty) query-parsed ones when present. -/
def mergeAllergies (base : LegacyFilters) (p : UserProfile) : LegacyFilters :=
  if p.allergies.isEmpty then base else { base with allergies := p.allergies }

/-- Goal-based injection (lines 113-118): the two exact goal labels inject
nutritional defaults when the corresponding bound is unset. -/
def mergeGoal (base : LegacyFilters) (p : UserProfile) : LegacyFilters :=
  if p.goal == some "Gain Muscle / Weight" then
    if base.min_protein.isNone then { base with min_protein := some 20 } else base
  else if p.goal == some "Lose Weight" then
    if base.max_calories.isNone then { base with max_calories := some 500 } else base
  else base

/-- The profile-merge part of `_legacy_parse_user_query` (lines 105-118). -/
def mergeProfile (base : LegacyFilters) (profile : Option UserProfile) : LegacyFilters :=
  match profile with
  | none => base
  | some p => mergeGoal (mergeAllergies (mergeDiets base p) p) p

/-- Model of `_legacy_parse_user_query` (query_parser.py lines 31-120). -/
def _legacy_parse_user_query (query : String) (profile : Option UserProfile) : LegacyFilters :=
  mergeProfile (legacyQueryFilters query) profile

/-! ## Spec-side definitions used to state claims -/

/-- Modelled from the spec: necessary syntactic conditions for a string to be
a single valid SQL SELECT statement (the repository contains no SQL parser,
so the spec's phrase "syntactically a single valid SELECT" is rendered by
necessary conditions): the statement starts with SELECT, contains no
statement separator, and — in the absence of any parenthesized subquery —
contains at most one WHERE keyword. -/
def singleSelectNecessary (s : List Char) : Bool :=
  "select".data.isPrefixOf (lowStr (lstripWs s)) &&
  !(s.contains ';') &&
  (s.contains '(' || wordCount "where".data (lowStr s) ≤ 1)

/-- The position at which the failsafe of `sanitize_sql` splices its date
predicate into a statement lacking one: right after the first space-delimited
WHERE, else at the first ` order by `, else at the first ` limit `, else the
end of the statement (all searched on the lowercased text, as in the source).
-/
def injAnchor (s : List Char) : Nat :=
  match firstOccur " where ".data (lowStr s) with
  | some p => p + 7
  | none =>
    match firstOccur " order by ".data (lowStr s) with
    | some p => p
    | none =>
      match firstOccur " limit ".data (lowStr s) with
      | some p => p
      | none => s.length

/-- Written from the claim's boost table (not from the source), for comparison
with the code's `goalBoost`: a set protein floor gives +0.25 if the item's
protein meets it, else +0.10 if the protein is within 75% of the floor (the
two are mutually exclusive, only the higher applies); symmetrically a set
calorie ceiling gives +0.25 if the item's calories meet it, else +0.10 if
they are within 125% of it; a missing bound or missing item field gives no
boost. -/
def boostSpec (minProtein maxCalories : Option ℚ) (item : MenuItem) : ℚ :=
  (match minProtein, item.protein_g with
   | some floorV, some p =>
     if p ≥ floorV then 1 / 4 else if p ≥ (3 / 4) * floorV then 1 / 10 else 0
   | _, _ => 0) +
  (match maxCalories, item.calories with
   | some ceilV, some c =>
     if c ≤ ceilV then 1 / 4 else if c ≤ (5 / 4) * ceilV then 1 / 10 else 0
   | _, _ => 0)

/-- Postgres semantics of the exact sanitized statement
`SELECT * FROM dining_hall_menu WHERE last_updated = CURRENT_DATE LIMIT 25`
(which `sanitize_sql` produces from a generated query that omitted the date
clause, see the corresponding theorem): the rows whose `last_updated` equals
the database server's current date, capped at 25. -/
def evalCanonicalInjected (dbToday : Nat) (db : List MenuItem) : List MenuItem :=
  (db.filter (fun r => r.last_updated == dbToday)).take 25

/-! ## Concrete fixtures used by counterexamples and witnesses -/

/-- A row whose only diet tag merely contains the word `vegan` as a substring. -/
def cexDietItem : MenuItem :=
  { id := 1, item := "Tofu Bowl", dining_hall := "Worcester", last_updated := 0,
    diet_types := some ["un-vegan"], embedding := some [0] }

/-- A parsed intent requiring the diet `vegan`. -/
def cexDietParsed : ParsedFilters := { diets := ["vegan"] }

/-- A plain row surfaced by the generated-SQL path. -/
def cexSqlItem : MenuItem :=
  { id := 2, item := "Chicken", dining_hall := "Franklin", last_updated := 0 }

/-- The constant-zero distance function (every row maximally similar). -/
def zeroDist : MenuItem → ℚ := fun _ => 0

/-- A row dated day 7 (the database server's current date in the date-invariant
counterexample, where the caller requested day 5). -/
def day7Row : MenuItem :=
  { id := 3, item := "Ghost Pasta", dining_hall := "Berkshire", last_updated := 7 }

/-- A row dated day 5 (the date requested by the caller). -/
def day5Row : MenuItem :=
  { id := 4, item := "Fresh Pasta", dining_hall := "Berkshire", last_updated := 5 }

/-- A generated statement whose WHERE keyword is followed by a newline instead
of a space: it passes every rejection check and lacks a date predicate. -/
def newlineWhereQuery : String := "SELECT * FROM dining_hall_menu WHERE\nid > 0 ORDER BY id"

/-- What `sanitize_sql` produces from `newlineWhereQuery`: a second WHERE
clause is injected because the injection step searches for the
space-delimited `" where "`. -/
def newlineWhereOut : String :=
  "SELECT * FROM dining_hall_menu WHERE\nid > 0 WHERE last_updated = CURRENT_DATE ORDER BY id LIMIT 25"

/-- A well-formed generated statement with a space-delimited WHERE clause,
standard clause order, and no date predicate (used to witness the amended
failsafe-injection claim). -/
def c3WitnessIn : String := "select * from dining_hall_menu where id > 0 order by id"

/-- The sanitizer's output on `c3WitnessIn`: the date predicate spliced right
after WHERE, before the ORDER BY clause, with a LIMIT appended. -/
def c3WitnessOut : String :=
  "select * from dining_hall_menu where last_updated = CURRENT_DATE AND id > 0 order by id LIMIT 25"

/-- A generated statement that omits the date clause entirely. -/
def canonicalGenQuery : String := "SELECT * FROM dining_hall_menu"

/-- The sanitizer's output on `canonicalGenQuery`. -/
def canonicalInjectedQuery : String :=
  "SELECT * FROM dining_hall_menu WHERE last_updated = CURRENT_DATE LIMIT 25"

/-- A well-formed SELECT in which the forbidden keyword `UPDATE` occurs only
inside the longer identifiers `updated_at` and `last_updated`. -/
def updatedAtQuery : String :=
  "SELECT updated_at FROM dining_hall_menu WHERE last_updated = CURRENT_DATE LIMIT 25"

/-- A concrete parsed intent with `min_protein = 25` and no sort hint. -/
def intent25 : SearchIntent :=
  { intent_type := IntentType.hybrid, search_query := "q",
    filters := some { nutritional_constraints := some [("min_protein", 25)] } }

/-! # Theorems -/

/-! ## Dictionary lemmas -/

theorem dictGet_cons (a : String × ℚ) (l : List (String × ℚ)) (k : String) :
    dictGet (a :: l) k = if a.1 == k then some a.2 else dictGet l k := by
  cases h : a.1 == k <;> simp [dictGet, List.find?_cons, h]

theorem dictGet_setMap (d : List (String × ℚ)) (k : String) (x : ℚ)
    (h : d.any (fun kv => kv.1 == k) = true) :
    dictGet (d.map (fun kv => if kv.1 == k then (k, x) else kv)) k = some x := by
  induction d with
  | nil => simp at h
  | cons kv tl ih =>
    cases hk : kv.1 == k
    · simp only [List.any_cons, hk, Bool.false_or] at h
      rw [List.map_cons, if_neg (by simp [hk]), dictGet_cons, if_neg (by simp [hk])]
      exact ih h
    · rw [List.map_cons, if_pos (by simp [hk]), dictGet_cons, if_pos (by simp)]

theorem dictGet_dictSet (d : List (String × ℚ)) (k : String) (x : ℚ) :
    dictGet (dictSet d k x) k = some x := by
  unfold dictSet
  split
  · rename_i h
    exact dictGet_setMap d k x h
  · rename_i h
    have h' : ∀ kv ∈ d, (kv.1 == k) = false := by
      intro kv hkv
      cases hkk : kv.1 == k
      · rfl
      · exact absurd (List.any_eq_true.mpr ⟨kv, hkv, hkk⟩) h
    clear h
    induction d with
    | nil => rw [List.nil_append, dictGet_cons, if_pos (by simp)]
    | cons kv tl ih =>
      rw [List.cons_append, dictGet_cons,
        if_neg (by simp [h' kv (List.mem_cons_self kv tl)])]
      exact ih (fun e he => h' e (List.mem_cons_of_mem _ he))

theorem dictSet_isEmpty (d : List (String × ℚ)) (k : String) (x : ℚ) :
    (dictSet d k x).isEmpty = false := by
  unfold dictSet
  split
  · rename_i h
    cases d with
    | nil => simp at h
    | cons kv tl => simp
  · cases d <;> simp

theorem optGetD_isEmpty_norm (l : List (String × ℚ)) :
    (if l.isEmpty then (none : Option (List (String × ℚ))) else some l).getD [] = l := by
  cases l <;> simp

/-! ## Claim C5 -/

/-- C5: for every parsed `SearchIntent` carrying a `min_protein` bound, the
portion-scaling post-processing maps any value at or above 15 to 10, raises
any value below 8 to 8, leaves values in `[8, 15)` unchanged, and — when no
explicit sort hint was set — sets the sort hint to `protein_desc`. -/
theorem claim_C5_portion_scaling_clamp (intent : SearchIntent) (v : ℚ)
    (hv : dictGet ((intent.filters.getD {}).nutritional_constraints.getD []) "min_protein"
            = some v) :
    (15 ≤ v →
      dictGet (((_apply_portion_scaling intent).filters.getD {}).nutritional_constraints.getD [])
        "min_protein" = some 10)
  ∧ (v < 8 →
      dictGet (((_apply_portion_scaling intent).filters.getD {}).nutritional_constraints.getD [])
        "min_protein" = some 8)
  ∧ (8 ≤ v → v < 15 →
      dictGet (((_apply_portion_scaling intent).filters.getD {}).nutritional_constraints.getD [])
        "min_protein" = some v)
  ∧ ((intent.filters.getD {}).sort_by = none →
      ((_apply_portion_scaling intent).filters.getD {}).sort_by = some "protein_desc") := by
  unfold _apply_portion_scaling
  simp only [hv, Option.getD_some]
  refine ⟨fun h15 => ?_, fun h8 => ?_, fun hlo hhi => ?_, fun hsort => ?_⟩
  · simp only [if_pos h15]
    rw [optGetD_isEmpty_norm, dictGet_dictSet]
  · have : ¬ (15 : ℚ) ≤ v := by linarith
    simp only [if_neg this, if_pos h8]
    rw [optGetD_isEmpty_norm, dictGet_dictSet]
  · have h1 : ¬ (15 : ℚ) ≤ v := by linarith
    have h2 : ¬ v < 8 := by linarith
    simp only [if_neg h1, if_neg h2]
    rw [optGetD_isEmpty_norm, hv]
  · simp [hsort]

/-- Witness for C5: the concrete intent with `min_protein = 25` is clamped to
10 and gets the `protein_desc` sort hint. -/
theorem claim_C5_witness :
    dictGet ((intent25.filters.getD {}).nutritional_constraints.getD []) "min_protein" = some 25
  ∧ dictGet (((_apply_portion_scaling intent25).filters.getD {}).nutritional_constraints.getD [])
      "min_protein" = some 10
  ∧ ((_apply_portion_scaling intent25).filters.getD {}).sort_by = some "protein_desc" :=
  ⟨by decide,
   (claim_C5_portion_scaling_clamp intent25 25 (by decide)).1 (by norm_num),
   (claim_C5_portion_scaling_clamp intent25 25 (by decide)).2.2.2 (by decide)⟩

/-! ## Claim C10 -/

theorem portionScaling_out_filters (intent : SearchIntent) :
    ∃ f1, (_apply_portion_scaling intent).filters = some f1
      ∧ f1.nutritional_constraints ≠ some []
      ∧ (∀ v, dictGet (f1.nutritional_constraints.getD []) "min_protein" = some v →
          8 ≤ v ∧ v < 15 ∧ f1.sort_by.isSome = true) := by
  unfold _apply_portion_scaling
  refine ⟨_, rfl, ?_, ?_⟩
  · split
    · simp
    · rename_i h
      simp only [ne_eq, Option.some.injEq]
      intro hcon
      rw [hcon] at h
      simp at h
  · intro v hv
    rw [optGetD_isEmpty_norm] at hv
    cases hm : dictGet ((intent.filters.getD {}).nutritional_constraints.getD []) "min_protein" with
    | none =>
      simp only [hm] at hv
      exact absurd hv (by simp)
    | some v0 =>
      simp only [hm] at hv ⊢
      have hsome : ∀ o : Option String,
          (if o.isNone = true then some "protein_desc" else o).isSome = true := by
        intro o
        cases o <;> simp
      by_cases h15 : (15 : ℚ) ≤ v0
      · rw [if_pos h15, dictGet_dictSet] at hv
        cases hv
        exact ⟨by norm_num, by norm_num, hsome _⟩
      · rw [if_neg h15] at hv
        by_cases h8 : v0 < 8
        · rw [if_pos h8, dictGet_dictSet] at hv
          cases hv
          exact ⟨le_refl _, by norm_num, hsome _⟩
        · rw [if_neg h8, hm] at hv
          cases hv
          exact ⟨le_of_not_lt h8, lt_of_not_le h15, hsome _⟩

theorem portionScaling_fixed (it : SearchIntent) (f : SearchFilters)
    (hfil : it.filters = some f)
    (hnorm : f.nutritional_constraints ≠ some [])
    (hmp : ∀ v, dictGet (f.nutritional_constraints.getD []) "min_protein" = some v →
            8 ≤ v ∧ v < 15 ∧ f.sort_by.isSome = true) :
    _apply_portion_scaling it = it := by
  have hncn : (if (f.nutritional_constraints.getD []).isEmpty then none
                else some (f.nutritional_constraints.getD [])) = f.nutritional_constraints := by
    cases hc : f.nutritional_constraints with
    | none => simp
    | some l =>
      cases l with
      | nil => exact absurd hc hnorm
      | cons a tl => simp
  unfold _apply_portion_scaling
  rw [hfil]
  simp only [Option.getD_some]
  cases hm : dictGet (f.nutritional_constraints.getD []) "min_protein" with
  | none =>
    rw [hncn]
    cases it with
    | mk a b c d => simp_all
  | some v =>
    obtain ⟨h8, h15, hsome⟩ := hmp v hm
    simp only
    rw [if_neg (by linarith : ¬ (15 : ℚ) ≤ v), if_neg (by linarith : ¬ v < (8 : ℚ)), hncn]
    have hnone : f.sort_by.isNone = false := by
      cases hs : f.sort_by
      · rw [hs] at hsome
        simp at hsome
      · simp
    rw [hnone]
    cases it with
    | mk a b c d => simp_all

/-- C10 (implicit): after `_apply_portion_scaling`, any `min_protein` bound in
the result lies in `[8, 15)`; applying the function twice yields the same
intent as applying it once; and an intent without nutritional constraints
still has none afterwards. -/
theorem claim_C10_portion_scaling_postcondition (intent : SearchIntent) :
    (∀ v, dictGet (((_apply_portion_scaling intent).filters.getD {}).nutritional_constraints.getD [])
        "min_protein" = some v → 8 ≤ v ∧ v < 15)
  ∧ _apply_portion_scaling (_apply_portion_scaling intent) = _apply_portion_scaling intent
  ∧ ((intent.filters.getD {}).nutritional_constraints.getD [] = [] →
      ((_apply_portion_scaling intent).filters.getD {}).nutritional_constraints = none) := by
  obtain ⟨f1, hf1, hnorm, hmp⟩ := portionScaling_out_filters intent
  refine ⟨?_, ?_, ?_⟩
  · intro v hv
    rw [hf1] at hv
    simp only [Option.getD_some] at hv
    exact ⟨(hmp v hv).1, (hmp v hv).2.1⟩
  · exact portionScaling_fixed _ f1 hf1 hnorm hmp
  · intro hempty
    rw [hf1]
    simp only [Option.getD_some]
    unfold _apply_portion_scaling at hf1
    simp only [Option.some.injEq] at hf1
    rw [← hf1]
    simp only [hempty, dictGet]
    simp

/-- Witness for C10: the postcondition and idempotence at the concrete intent
with `min_protein = 25`. -/
theorem claim_C10_witness :
    ((8 : ℚ) ≤ 10 ∧ (10 : ℚ) < 15)
  ∧ _apply_portion_scaling (_apply_portion_scaling intent25) = _apply_portion_scaling intent25 :=
  ⟨(claim_C10_portion_scaling_postcondition intent25).1 10 (by decide),
   (claim_C10_portion_scaling_postcondition intent25).2.1⟩

/-! ## Claim C6 -/

/-- C6 counterexample: a profile whose free-text goal label is exactly
`gain muscle` — which contains "gain muscle" — does NOT get a protein floor
injected by the fallback parser (the code compares for equality with the
label `Gain Muscle / Weight`), and likewise a goal of `trying to lose weight`
gets no calorie ceiling.  The claim requires `some 20` resp. `some 500`
here. -/
theorem claim_C6_counterexample :
    containsSub "gain muscle".data (lowStr "gain muscle".data) = true
  ∧ (legacyQueryFilters "").min_protein = none
  ∧ (_legacy_parse_user_query "" (some { goal := some "gain muscle" })).min_protein = none
  ∧ containsSub "lose weight".data (lowStr "trying to lose weight".data) = true
  ∧ (_legacy_parse_user_query "" (some { goal := some "trying to lose weight" })).max_calories
      = none := by
  refine ⟨by decide, by decide, by decide, by decide, by decide⟩

/-- C6 amended: the fallback parser injects `min_protein = 20` exactly when
the profile's goal label is the exact string `Gain Muscle / Weight` (not any
text containing "gain muscle") and no protein floor was parsed from the
query; it injects `max_calories = 500` exactly when the goal label is the
exact string `Lose Weight` and no calorie ceiling was parsed from the
query. -/
theorem claim_C6_amended (q : String) (p : UserProfile) :
    (p.goal = some "Gain Muscle / Weight" → (legacyQueryFilters q).min_protein = none →
      (_legacy_parse_user_query q (some p)).min_protein = some 20)
  ∧ (p.goal = some "Lose Weight" → (legacyQueryFilters q).max_calories = none →
      (_legacy_parse_user_query q (some p)).max_calories = some 500) := by
  have hdm : ∀ b, (mergeDiets b p).min_protein = b.min_protein := by
    intro b
    unfold mergeDiets
    split <;> rfl
  have hdc : ∀ b, (mergeDiets b p).max_calories = b.max_calories := by
    intro b
    unfold mergeDiets
    split <;> rfl
  have ham : ∀ b, (mergeAllergies b p).min_protein = b.min_protein := by
    intro b
    unfold mergeAllergies
    split <;> rfl
  have hac : ∀ b, (mergeAllergies b p).max_calories = b.max_calories := by
    intro b
    unfold mergeAllergies
    split <;> rfl
  constructor
  · intro hg hq
    show (mergeGoal (mergeAllergies (mergeDiets (legacyQueryFilters q) p) p) p).min_protein
      = some 20
    have hbase : (mergeAllergies (mergeDiets (legacyQueryFilters q) p) p).min_protein = none := by
      rw [ham, hdm, hq]
    unfold mergeGoal
    rw [if_pos (by rw [hg]; rfl), if_pos (by rw [hbase]; rfl)]
  · intro hg hq
    show (mergeGoal (mergeAllergies (mergeDiets (legacyQueryFilters q) p) p) p).max_calories
      = some 500
    have hbase : (mergeAllergies (mergeDiets (legacyQueryFilters q) p) p).max_calories = none := by
      rw [hac, hdc, hq]
    unfold mergeGoal
    rw [if_neg (by rw [hg]; exact fun h => nomatch h), if_pos (by rw [hg]; rfl),
      if_pos (by rw [hbase]; rfl)]

/-- Witness for C6 amended: the exact goal labels do trigger the injections. -/
theorem claim_C6_witness :
    (_legacy_parse_user_query "breakfast" (some { goal := some "Gain Muscle / Weight" })).min_protein
      = some 20
  ∧ (_legacy_parse_user_query "breakfast" (some { goal := some "Lose Weight" })).max_calories
      = some 500 :=
  ⟨(claim_C6_amended "breakfast" { goal := some "Gain Muscle / Weight" }).1 rfl (by decide),
   (claim_C6_amended "breakfast" { goal := some "Lose Weight" }).2 rfl (by decide)⟩

/-! ## Claim C4 -/

theorem sanitize_ok_checks (raw out : List Char) (h : sanitize_sql raw = .ok out) :
    (cleanSql raw).isEmpty = false
  ∧ forbiddenHit (upStr (cleanSql raw)) = none
  ∧ "SELECT".data.isPrefixOf (lstripWs (upStr (cleanSql raw))) = true
  ∧ (cleanSql raw).contains ';' = false
  ∧ containsSub "dining_hall_menu".data (lowStr (cleanSql raw)) = true := by
  unfold sanitize_sql at h
  split at h
  · exact absurd h (by simp)
  · rename_i hempty
    split at h
    · exact absurd h (by simp)
    · rename_i hfb
      split at h
      · exact absurd h (by simp)
      · rename_i hsel
        split at h
        · exact absurd h (by simp)
        · rename_i hsemi
          split at h
          · exact absurd h (by simp)
          · rename_i htab
            exact ⟨by simpa using hempty, hfb, by simpa using hsel,
              by simpa using hsemi, by simpa using htab⟩

theorem sanitize_error_of_not_ok (s : List Char)
    (hno : ∀ out, sanitize_sql s = .ok out → False) :
    ∃ e, sanitize_sql s = .error e := by
  cases hs : sanitize_sql s with
  | error e => exact ⟨e, rfl⟩
  | ok out => exact absurd hs (hno out)

theorem occursAt_length_false (pat u : List Char) (hp : pat ≠ []) :
    occursAt pat u u.length = false := by
  unfold occursAt
  rw [List.drop_length]
  cases pat with
  | nil => exact absurd rfl hp
  | cons c tl => rfl

/-- C4: every forbidden keyword, present as a whole word (case-insensitively)
in the cleaned statement, makes `sanitize_sql` raise; a forbidden keyword
occurring only as a proper substring of a longer identifier (flanked by a
word character) is not flagged by the keyword scan, and the concrete
statement selecting `updated_at` sanitizes successfully; additionally, any
input not beginning with SELECT, containing a statement separator after
trailing-semicolon stripping, or not referencing `dining_hall_menu` is
rejected. -/
theorem claim_C4_sanitizer_rejection_set (s : List Char) (k : String) :
    (k ∈ FORBIDDEN_KEYWORDS → containsWord (stripWs k.data) (upStr (cleanSql s)) = true →
      ∃ e, sanitize_sql s = .error e)
  ∧ (∀ u, k ∈ FORBIDDEN_KEYWORDS →
      (∀ i, i < u.length → occursAt (stripWs k.data) u i = true →
        (i ≠ 0 ∧ isWordChar (charAt u (i - 1)) = true)
        ∨ (i + (stripWs k.data).length < u.length
            ∧ isWordChar (charAt u (i + (stripWs k.data).length)) = true)) →
      containsWord (stripWs k.data) u = false)
  ∧ ("SELECT".data.isPrefixOf (lstripWs (upStr (cleanSql s))) = false →
      ∃ e, sanitize_sql s = .error e)
  ∧ ((cleanSql s).contains ';' = true → ∃ e, sanitize_sql s = .error e)
  ∧ (containsSub "dining_hall_menu".data (lowStr (cleanSql s)) = false →
      ∃ e, sanitize_sql s = .error e)
  ∧ sanitize_sql updatedAtQuery.data = .ok updatedAtQuery.data := by
  have hnonnil : ∀ k0 : String, k0 ∈ FORBIDDEN_KEYWORDS → stripWs k0.data ≠ [] := by decide
  refine ⟨?_, ?_, ?_, ?_, ?_, by rfl⟩
  · intro hk hcw
    apply sanitize_error_of_not_ok
    intro out hok
    have hnone := (sanitize_ok_checks s out hok).2.1
    have : ¬ containsWord (stripWs k.data) (upStr (cleanSql s)) = true :=
      List.find?_eq_none.mp hnone k hk
    exact this hcw
  · intro u hk hocc
    rw [containsWord, List.any_eq_false]
    intro i hi
    rw [List.mem_range] at hi
    intro hcontra
    unfold wordOccursAt at hcontra
    rcases Nat.lt_or_ge i u.length with hlt | hge
    · have ho : occursAt (stripWs k.data) u i = true := by
        cases hox : occursAt (stripWs k.data) u i
        · rw [hox] at hcontra
          simp at hcontra
        · rfl
      rcases hocc i hlt ho with ⟨hne, hw⟩ | ⟨hbound, hw⟩
      · have h1 : (i == 0) = false := by simpa using hne
        rw [ho, h1, hw] at hcontra
        simp at hcontra
      · have h2 : decide (u.length ≤ i + (stripWs k.data).length) = false := by
          simp [Nat.not_le.mpr hbound]
        rw [ho, hw] at hcontra
        simp [Nat.not_le.mpr hbound] at hcontra
    · have hieq : i = u.length := Nat.le_antisymm (Nat.lt_succ_iff.mp hi) hge
      rw [hieq, occursAt_length_false _ _ (hnonnil k hk)] at hcontra
      simp at hcontra
  · intro hsel
    apply sanitize_error_of_not_ok
    intro out hok
    rw [(sanitize_ok_checks s out hok).2.2.1] at hsel
    cases hsel
  · intro hsemi
    apply sanitize_error_of_not_ok
    intro out hok
    rw [(sanitize_ok_checks s out hok).2.2.2.1] at hsemi
    cases hsemi
  · intro htab
    apply sanitize_error_of_not_ok
    intro out hok
    rw [(sanitize_ok_checks s out hok).2.2.2.2] at htab
    cases htab

/-- Witness for C4: `DROP` as a whole word is rejected; `UPDATE` inside the
identifier `X_UPDATE_Y` is not flagged by the keyword scan. -/
theorem claim_C4_witness :
    (∃ e, sanitize_sql "DROP TABLE dining_hall_menu".data = .error e)
  ∧ containsWord (stripWs "UPDATE".data) "SELECT X_UPDATE_Y".data = false :=
  ⟨(claim_C4_sanitizer_rejection_set "DROP TABLE dining_hall_menu".data "DROP").1
      (by decide) (by decide),
   (claim_C4_sanitizer_rejection_set [] "UPDATE").2.1 "SELECT X_UPDATE_Y".data
      (by decide) (by decide)⟩

/-! ## Claim C7 -/

theorem semantic_mem (pg : Bool) (db : List MenuItem) (dist : MenuItem → ℚ)
    (limit : Nat) (threshold : ℚ) (rd ea : List String) (hall meal : Option String)
    (cd : Option Nat) (today : Nat) (embedOk execOk : Bool) (l : List MenuItem)
    (h : semantic_search pg db dist limit threshold rd ea hall meal cd today embedOk execOk
          = .ok l) :
    ∀ x ∈ l, semanticPrefilter rd ea hall meal (cd.getD today) x = true
      ∧ threshold ≤ 1 - dist x := by
  unfold semantic_search at h
  split at h
  · cases h
    intro x hx
    cases hx
  · split at h
    · cases h
    · split at h
      · cases h
        intro x hx
        cases hx
      · cases h
        intro x hx
        have hx1 : x ∈ (db.filter (fun r =>
            semanticPrefilter rd ea hall meal (cd.getD today) r
              && (threshold ≤ 1 - dist r))).insertionSort (fun a b => dist a ≤ dist b) :=
          List.take_subset _ _ hx
        have hx2 : x ∈ db.filter (fun r =>
            semanticPrefilter rd ea hall meal (cd.getD today) r
              && (threshold ≤ 1 - dist r)) :=
          (List.perm_insertionSort _ _).mem_iff.mp hx1
        have := List.of_mem_filter hx2
        simp only [Bool.and_eq_true, decide_eq_true_eq] at this
        exact ⟨this.1, this.2⟩

/-- C7: `semantic_search` returns at most `limit` items, ordered by cosine
similarity (`1 - dist`) descending, every returned item has similarity at
least the threshold (whose default is 0.3), and an unavailable vector backend
yields the empty list rather than an error. -/
theorem claim_C7_vector_retriever (pg : Bool) (db : List MenuItem) (dist : MenuItem → ℚ)
    (limit : Nat) (threshold : ℚ) (rd ea : List String) (hall meal : Option String)
    (cd : Option Nat) (today : Nat) (embedOk execOk : Bool) (l : List MenuItem)
    (h : semantic_search pg db dist limit threshold rd ea hall meal cd today embedOk execOk
          = .ok l) :
    semanticDefaultThreshold = 3 / 10
  ∧ (pg = false → l = [])
  ∧ l.length ≤ limit
  ∧ l.Pairwise (fun a b => 1 - dist b ≤ 1 - dist a)
  ∧ (∀ x ∈ l, threshold ≤ 1 - dist x) := by
  refine ⟨rfl, ?_, ?_, ?_, fun x hx => (semantic_mem pg db dist limit threshold rd ea
    hall meal cd today embedOk execOk l h x hx).2⟩
  · intro hpg
    unfold semantic_search at h
    rw [hpg] at h
    cases h
    rfl
  · unfold semantic_search at h
    split at h
    · cases h
      exact Nat.zero_le _
    · split at h
      · cases h
      · split at h
        · cases h
          exact Nat.zero_le _
        · cases h
          rw [List.length_take]
          exact min_le_left _ _
  · unfold semantic_search at h
    split at h
    · cases h
      exact List.Pairwise.nil
    · split at h
      · cases h
      · split at h
        · cases h
          exact List.Pairwise.nil
        · cases h
          haveI : IsTotal MenuItem (fun a b => dist a ≤ dist b) :=
            ⟨fun a b => le_total (dist a) (dist b)⟩
          haveI : IsTrans MenuItem (fun a b => dist a ≤ dist b) :=
            ⟨fun a b c hab hbc => le_trans hab hbc⟩
          have hsorted := List.sorted_insertionSort (fun a b => dist a ≤ dist b)
            (db.filter (fun r =>
              semanticPrefilter rd ea hall meal (cd.getD today) r
                && (threshold ≤ 1 - dist r)))
          have hp : List.Pairwise (fun a b : MenuItem => 1 - dist b ≤ 1 - dist a)
              ((db.filter (fun r =>
                semanticPrefilter rd ea hall meal (cd.getD today) r
                  && (threshold ≤ 1 - dist r))).insertionSort (fun a b => dist a ≤ dist b)) :=
            hsorted.imp (fun hab => by linarith)
          exact hp.sublist (List.take_sublist _ _)

/-- Witness for C7 at a concrete database of one fully-similar row. -/
theorem claim_C7_witness :
    semanticDefaultThreshold = 3 / 10
  ∧ (true = false → [cexDietItem] = [])
  ∧ [cexDietItem].length ≤ 5
  ∧ [cexDietItem].Pairwise (fun a b => 1 - zeroDist b ≤ 1 - zeroDist a)
  ∧ (∀ x ∈ [cexDietItem], (3 : ℚ) / 10 ≤ 1 - zeroDist x) :=
  claim_C7_vector_retriever true [cexDietItem] zeroDist 5 (3 / 10) [] [] none none
    none 0 true true [cexDietItem] (by decide)

/-! ## Claim C1 -/

theorem containsSub_of_prefix (p t : List Char) (h : p.isPrefixOf t = true) :
    containsSub p t = true := by
  unfold containsSub
  rw [List.any_eq_true]
  refine ⟨0, List.mem_range.mpr (Nat.succ_pos _), ?_⟩
  unfold occursAt
  simpa using h

theorem containsSub_append_left (p pre t : List Char) (h : containsSub p t = true) :
    containsSub p (pre ++ t) = true := by
  unfold containsSub at h ⊢
  rw [List.any_eq_true] at h ⊢
  obtain ⟨i, hir, hio⟩ := h
  refine ⟨pre.length + i, ?_, ?_⟩
  · rw [List.mem_range] at hir ⊢
    rw [List.length_append]
    omega
  · unfold occursAt at hio ⊢
    rw [List.drop_append]
    exact hio

theorem mem_joinComma (x : String) (xs : List String) (hx : x ∈ xs) :
    containsSub (lowStr x.data) (lowStr (joinComma xs)) = true := by
  induction xs with
  | nil => cases hx
  | cons y ys ih =>
    rcases List.mem_cons.mp hx with h | h
    · subst h
      cases ys with
      | nil =>
        exact containsSub_of_prefix _ _ (by simp [joinComma])
      | cons z zs =>
        apply containsSub_of_prefix
        rw [show joinComma (x :: z :: zs) = x.data ++ ',' :: joinComma (z :: zs) from rfl]
        unfold lowStr
        rw [List.map_append, List.isPrefixOf_iff_prefix]
        exact List.prefix_append _ _
    · cases ys with
      | nil => cases h
      | cons z zs =>
        have hsplit : lowStr (joinComma (y :: z :: zs))
            = lowStr (y.data ++ [',']) ++ lowStr (joinComma (z :: zs)) := by
          show lowStr (y.data ++ ',' :: joinComma (z :: zs)) = _
          unfold lowStr
          rw [← List.map_append]
          simp
        rw [hsplit]
        exact containsSub_append_left _ _ _ (ih h)

theorem contains_lowS_iff (xs : List String) (a : String) :
    (xs.map lowS).contains (lowS a) = true ↔ ∃ x ∈ xs, lowS x = lowS a := by
  rw [List.elem_iff]
  constructor
  · intro h
    obtain ⟨x, hx, he⟩ := List.mem_map.mp h
    exact ⟨x, hx, he⟩
  · intro ⟨x, hx, he⟩
    exact List.mem_map.mpr ⟨x, hx, he⟩

theorem passes_allergen_sound (it : MenuItem) (diets excluded : List String)
    (hp : _passes_hard_constraints it diets excluded = true)
    (a : String) (ha : a ∈ excluded) :
    ((it.allergens.getD []).map lowS).contains (lowS a) = false := by
  unfold _passes_hard_constraints at hp
  rw [Bool.and_eq_true] at hp
  have h2 := hp.2
  cases hal : it.allergens with
  | none => rfl
  | some al =>
    cases hc : ((al : List String).map lowS).contains (lowS a) with
    | false => exact hc
    | true =>
      exfalso
      rw [hal] at h2
      replace h2 : (if (excluded.isEmpty || al.isEmpty) = true then true
          else !(al.map lowS).any fun b => (excluded.map lowS).contains b) = true := h2
      have hexne : excluded.isEmpty = false := by
        cases excluded with
        | nil => cases ha
        | cons _ _ => rfl
      have halne : al.isEmpty = false := by
        cases al with
        | nil => simp at hc
        | cons _ _ => rfl
      obtain ⟨x, hx, hxe⟩ := (contains_lowS_iff al a).mp hc
      have hany : (al.map lowS).any (fun b => (excluded.map lowS).contains b) = true := by
        rw [List.any_eq_true]
        refine ⟨lowS x, List.mem_map.mpr ⟨x, hx, rfl⟩, ?_⟩
        rw [hxe, List.elem_iff]
        exact List.mem_map.mpr ⟨a, ha, rfl⟩
      rw [hexne, halne] at h2
      have h3 : (!(al.map lowS).any fun b => (excluded.map lowS).contains b) = true := by
        simpa using h2
      rw [hany] at h3
      cases h3

theorem passes_diet_sound (it : MenuItem) (diets excluded : List String)
    (hp : _passes_hard_constraints it diets excluded = true)
    (d : String) (hd : d ∈ diets) :
    containsSub (lowStr d.data) (lowStr (joinComma (it.diet_types.getD []))) = true := by
  unfold _passes_hard_constraints at hp
  rw [Bool.and_eq_true] at hp
  have h1 := hp.1
  have hdne : diets.isEmpty = false := by
    cases diets with
    | nil => cases hd
    | cons _ _ => rfl
  rw [hdne] at h1
  rw [if_neg Bool.false_ne_true] at h1
  cases hdt : it.diet_types with
  | none =>
    rw [hdt] at h1
    exact (Bool.false_ne_true (show false = true from h1)).elim
  | some ds =>
    rw [hdt] at h1
    replace h1 : (if ds.isEmpty = true then false
        else diets.all fun rd => (ds.map lowS).contains (lowS rd)) = true := h1
    cases hds : ds.isEmpty with
    | true =>
      rw [hds, if_pos rfl] at h1
      exact (Bool.false_ne_true h1).elim
    | false =>
      rw [hds, if_neg Bool.false_ne_true] at h1
      rw [List.all_eq_true] at h1
      obtain ⟨x, hx, hxe⟩ := (contains_lowS_iff ds d).mp (h1 d hd)
      have hj := mem_joinComma x ds hx
      have hxd : lowStr x.data = lowStr d.data := congrArg String.data hxe
      rw [hxd] at hj
      exact hj

theorem prefilter_allergen_sound (it : MenuItem) (rd ea : List String)
    (qh qm : Option String) (fd : Nat)
    (hp : semanticPrefilter rd ea qh qm fd it = true)
    (a : String) (ha : a ∈ ea) :
    ((it.allergens.getD []).map lowS).contains (lowS a) = false := by
  unfold semanticPrefilter at hp
  simp only [Bool.and_eq_true] at hp
  have h2 := hp.1.1.2
  rw [List.all_eq_true] at h2
  have hthis := h2 a ha
  cases hal : it.allergens with
  | none => rfl
  | some al =>
    rw [hal] at hthis
    cases hc : ((al : List String).map lowS).contains (lowS a) with
    | false => exact hc
    | true =>
      exfalso
      obtain ⟨x, hx, hxe⟩ := (contains_lowS_iff al a).mp hc
      have hj := mem_joinComma x al hx
      have hxd : lowStr x.data = lowStr a.data := congrArg String.data hxe
      rw [hxd] at hj
      have hlc : likeContains a (joinComma al) = false := by
        simpa using hthis
      unfold likeContains at hlc
      rw [hj] at hlc
      cases hlc

theorem prefilter_diet_sound (it : MenuItem) (rd ea : List String)
    (qh qm : Option String) (fd : Nat)
    (hp : semanticPrefilter rd ea qh qm fd it = true)
    (d : String) (hd : d ∈ rd) :
    containsSub (lowStr d.data) (lowStr (joinComma (it.diet_types.getD []))) = true := by
  unfold semanticPrefilter at hp
  simp only [Bool.and_eq_true] at hp
  have h1 := hp.1.1.1.2
  rw [List.all_eq_true] at h1
  have hthis := h1 d hd
  cases hdt : it.diet_types with
  | none =>
    rw [hdt] at hthis
    exact (Bool.false_ne_true (show false = true from hthis)).elim
  | some ds =>
    rw [hdt] at hthis
    exact hthis

theorem prefilter_date (it : MenuItem) (rd ea : List String)
    (qh qm : Option String) (fd : Nat)
    (hp : semanticPrefilter rd ea qh qm fd it = true) :
    it.last_updated = fd := by
  unfold semanticPrefilter at hp
  simp only [Bool.and_eq_true] at hp
  exact eq_of_beq hp.1.1.1.1.2

theorem dictWrite_mem (acc : List Entry) (id : Nat) (it : MenuItem) (sc : ℚ)
    (e : Entry) (he : e ∈ dictWrite acc id it sc) :
    e.2.1 = it ∨ ∃ e0 ∈ acc, e.2.1 = e0.2.1 := by
  unfold dictWrite at he
  split at he
  · obtain ⟨e0, he0, heq⟩ := List.mem_map.mp he
    cases h0 : (e0.1 == id) with
    | true =>
      left
      rw [← heq, h0]
      rfl
    | false =>
      right
      refine ⟨e0, he0, ?_⟩
      rw [← heq, h0]
      rfl
  · rcases List.mem_append.mp he with h | h
    · exact Or.inr ⟨e, h, rfl⟩
    · left
      rw [List.mem_singleton.mp h]

theorem sqlLoop_mem (diets allergens : List String) (items : List MenuItem) (i : Nat)
    (acc : List Entry)
    (hacc : ∀ e ∈ acc, _passes_hard_constraints e.2.1 diets allergens = true)
    (e : Entry) (he : e ∈ sqlLoop diets allergens items i acc) :
    _passes_hard_constraints e.2.1 diets allergens = true := by
  induction items generalizing i acc with
  | nil => exact hacc e he
  | cons item rest ih =>
    refine ih (i + 1) _ ?_ he
    intro e' he'
    split at he'
    · rename_i hpass
      rcases dictWrite_mem _ _ _ _ _ he' with h | ⟨e0, he0, heq⟩
      · rw [h]
        exact hpass
      · rw [heq]
        exact hacc e0 he0
    · exact hacc e' he'

theorem semLoop_mem (P : MenuItem → Prop) (items : List MenuItem) :
    ∀ (i : Nat) (acc : List Entry), (∀ e ∈ acc, P e.2.1) → (∀ x ∈ items, P x) →
      ∀ e ∈ semLoop items i acc, P e.2.1 := by
  induction items with
  | nil =>
    intro i acc hacc _ e he
    exact hacc e he
  | cons item rest ih =>
    intro i acc hacc hitems e he
    refine ih (i + 1) _ ?_ (fun x hx => hitems x (List.mem_cons_of_mem _ hx)) e he
    intro e' he'
    split at he'
    · obtain ⟨e0, he0, heq⟩ := List.mem_map.mp he'
      have hsame : e'.2.1 = e0.2.1 := by
        rw [← heq]
        split <;> rfl
      rw [hsame]
      exact hacc e0 he0
    · rcases List.mem_append.mp he' with h | h
      · exact hacc e' h
      · rw [List.mem_singleton.mp h]
        exact hitems item (List.mem_cons_self item rest)

theorem hybridCandidates_mem (qd qa : List String) (qh qm : Option String)
    (sqlItems : List MenuItem) (sqlError : Option String)
    (utts usem pg eo xo : Bool) (db : List MenuItem) (dist : MenuItem → ℚ)
    (limit : Nat) (cd : Option Nat) (today : Nat) (entries : List Entry)
    (h : hybridCandidates qd qa qh qm sqlItems sqlError utts usem pg eo xo
          db dist limit cd today = .ok entries)
    (e : Entry) (he : e ∈ entries) :
    _passes_hard_constraints e.2.1 qd qa.dedup = true
    ∨ semanticPrefilter qd qa.dedup qh qm (cd.getD today) e.2.1 = true := by
  unfold hybridCandidates at h
  cases hsem : (if usem && pg then
      semantic_search pg db dist (limit * 2) semanticDefaultThreshold
        qd qa.dedup qh qm cd today eo xo
    else .ok []) with
  | error e0 =>
    rw [hsem] at h
    cases h
  | ok semItems =>
    rw [hsem] at h
    cases h
    refine semLoop_mem (fun it => _passes_hard_constraints it qd qa.dedup = true
      ∨ semanticPrefilter qd qa.dedup qh qm (cd.getD today) it = true) semItems 0 _ ?_ ?_ e he
    · intro e' he'
      split at he'
      · exact Or.inl (sqlLoop_mem qd qa.dedup sqlItems 0 [] (by intro x hx; cases hx) e' he')
      · cases he'
    · intro x hx
      right
      cases hup : (usem && pg) with
      | false =>
        rw [hup, if_neg Bool.false_ne_true] at hsem
        cases hsem
        cases hx
      | true =>
        rw [hup, if_pos rfl] at hsem
        exact (semantic_mem _ _ _ _ _ _ _ _ _ _ _ _ _ _ hsem x hx).1

theorem manualPostFilter_subset (manual : Option ManualFilters) (items : List MenuItem)
    (x : MenuItem) (hx : x ∈ manualPostFilter manual items) : x ∈ items := by
  unfold manualPostFilter at hx
  cases manual with
  | none => exact hx
  | some mf =>
    simp only at hx
    split at hx
    · exact hx
    · exact List.mem_of_mem_filter hx

theorem hybridRank_mem (mp mc : Option ℚ) (manual : Option ManualFilters)
    (limit : Nat) (entries : List Entry) (item : MenuItem)
    (hi : item ∈ hybridRank mp mc manual limit entries) :
    ∃ e ∈ entries, e.2.1 = item := by
  unfold hybridRank at hi
  have h1 := manualPostFilter_subset _ _ _ hi
  obtain ⟨e1, he1, heq⟩ := List.mem_map.mp h1
  have he2 := List.take_subset _ _ he1
  have he3 := (List.perm_insertionSort _ _).mem_iff.mp he2
  obtain ⟨e0, he0, heq0⟩ := List.mem_map.mp he3
  exact ⟨e0, he0, by rw [← heq, ← heq0]⟩

set_option maxHeartbeats 2000000 in
/-- C1 counterexample: with required diet `vegan`, a database row whose only
diet tag is `un-vegan` (which contains `vegan` as a substring but is not the
tag `vegan`) is returned by `hybrid_retrieve` through the vector path, even
though it fails the exact hard-constraint check — so not every fused item's
diet-tag set contains every required diet. -/
theorem claim_C1_counterexample :
    hybrid_retrieve cexDietParsed [] none none true true true true true
      [cexDietItem] zeroDist 10 none 0 = .ok [cexDietItem]
  ∧ cexDietParsed.diets = ["vegan"]
  ∧ _passes_hard_constraints cexDietItem ["vegan"] [] = false
  ∧ ((cexDietItem.diet_types.getD []).map lowS).contains (lowS "vegan") = false :=
  ⟨by decide, rfl, by decide, by decide⟩

/-- C1 amended: every item returned by `hybrid_retrieve` satisfies the active
excluded-allergen constraint exactly (its allergen set, compared
case-insensitively, is disjoint from the parsed excluded allergens — on both
retrieval paths), while the required-diet constraint is only guaranteed in
substring form: each required diet occurs case-insensitively as a substring
of the comma-joined diet-tag list (the generated-SQL path checks exact tag
membership, but the vector path pre-filters by `LIKE` substring matching). -/
theorem claim_C1_amended (parsed : ParsedFilters)
    (sqlItems : List MenuItem) (sqlError : Option String)
    (manual : Option ManualFilters) (utts usem pg eo xo : Bool)
    (db : List MenuItem) (dist : MenuItem → ℚ) (limit : Nat)
    (cd : Option Nat) (today : Nat) (l : List MenuItem)
    (h : hybrid_retrieve parsed sqlItems sqlError manual utts usem pg eo xo
          db dist limit cd today = .ok l)
    (item : MenuItem) (hm : item ∈ l) :
    (∀ a ∈ parsed.allergies, ((item.allergens.getD []).map lowS).contains (lowS a) = false)
  ∧ (∀ d ∈ parsed.diets,
      containsSub (lowStr d.data) (lowStr (joinComma (item.diet_types.getD []))) = true) := by
  unfold hybrid_retrieve at h
  cases hc : hybridCandidatesOf parsed sqlItems sqlError manual utts usem pg eo xo
      db dist limit cd today with
  | error e0 =>
    rw [hc] at h
    cases h
  | ok entries =>
    rw [hc] at h
    cases h
    obtain ⟨e, he, heq⟩ := hybridRank_mem _ _ _ _ _ _ hm
    unfold hybridCandidatesOf at hc
    have hdisj := hybridCandidates_mem _ _ _ _ _ _ _ _ _ _ _ _ _ _ _ _ _ hc e he
    rw [heq] at hdisj
    constructor
    · intro a ha
      rcases hdisj with hp | hp
      · exact passes_allergen_sound item _ _ hp a (List.mem_dedup.mpr ha)
      · exact prefilter_allergen_sound item _ _ _ _ _ hp a (List.mem_dedup.mpr ha)
    · intro d hd
      rcases hdisj with hp | hp
      · exact passes_diet_sound item _ _ hp d hd
      · exact prefilter_diet_sound item _ _ _ _ _ hp d hd

set_option maxHeartbeats 2000000 in
/-- Witness for C1 amended: a returned item at a concrete instance satisfies
the amended constraints. -/
theorem claim_C1_witness :
    (∀ a ∈ cexDietParsed.allergies,
      ((cexDietItem.allergens.getD []).map lowS).contains (lowS a) = false)
  ∧ (∀ d ∈ cexDietParsed.diets,
      containsSub (lowStr d.data) (lowStr (joinComma (cexDietItem.diet_types.getD []))) = true) :=
  claim_C1_amended cexDietParsed [] none none true true true true true
    [cexDietItem] zeroDist 10 none 0 [cexDietItem] (by decide) cexDietItem
    (List.mem_singleton.mpr rfl)

/-! ## Claim C8 -/

theorem semantic_search_execFail (pg : Bool) (db : List MenuItem) (dist : MenuItem → ℚ)
    (limit : Nat) (threshold : ℚ) (rd ea : List String) (hall meal : Option String)
    (cd : Option Nat) (today : Nat) :
    semantic_search pg db dist limit threshold rd ea hall meal cd today true false = .ok [] := by
  unfold semantic_search
  cases pg <;> rfl

/-- C8 counterexample: when the query-embedding call fails, the exception
propagates out of `hybrid_retrieve` (`get_embedding` runs outside the
try/except of `semantic_search` and `hybrid_retrieve` installs no handler),
so the fused output does not contain the generated-SQL path's surviving
candidate — there is no output list at all, contradicting the claim that the
engine logs and continues with the SQL-path candidates. -/
theorem claim_C8_counterexample :
    ¬ ∃ l, hybrid_retrieve {} [cexSqlItem] none none true true true false true
        [] zeroDist 10 none 0 = .ok l ∧ cexSqlItem ∈ l := by
  rintro ⟨l, hl, -⟩
  rw [show hybrid_retrieve {} [cexSqlItem] none none true true true false true
      [] zeroDist 10 none 0 = .error "embedding call failed" from rfl] at hl
  cases hl

/-- C8 amended: an exception raised during the vector path's SQL execution
(after the embedding call) is caught inside `semantic_search` and treated as
an empty vector result, so `hybrid_retrieve` returns exactly what it returns
with the vector sub-path disabled — the generated-SQL path's surviving
candidates are preserved; a failure of the query-embedding call itself,
however, escapes `hybrid_retrieve` as an error. -/
theorem claim_C8_amended (parsed : ParsedFilters) (sqlItems : List MenuItem)
    (sqlError : Option String) (manual : Option ManualFilters)
    (utts usem pg : Bool) (db : List MenuItem) (dist : MenuItem → ℚ)
    (limit : Nat) (cd : Option Nat) (today : Nat) :
    hybrid_retrieve parsed sqlItems sqlError manual utts usem pg true false
        db dist limit cd today
      = hybrid_retrieve parsed sqlItems sqlError manual utts false pg true true
        db dist limit cd today
  ∧ (pg = true → usem = true →
      ∃ e, hybrid_retrieve parsed sqlItems sqlError manual utts usem pg false true
          db dist limit cd today = .error e) := by
  constructor
  · unfold hybrid_retrieve hybridCandidatesOf hybridCandidates
    rw [semantic_search_execFail, ite_self, Bool.false_and,
      if_neg Bool.false_ne_true]
  · intro hpg husem
    subst hpg
    subst husem
    exact ⟨"embedding call failed", rfl⟩

/-- Witness for C8 amended at a concrete instance, together with the concrete
observation that with a failing vector execution the SQL-path candidate is
still returned. -/
theorem claim_C8_witness :
    (hybrid_retrieve {} [cexSqlItem] none none true true true true false
        [] zeroDist 10 none 0
      = hybrid_retrieve {} [cexSqlItem] none none true false true true true
        [] zeroDist 10 none 0)
  ∧ (∃ e, hybrid_retrieve {} [cexSqlItem] none none true true true false true
        [] zeroDist 10 none 0 = .error e)
  ∧ hybrid_retrieve {} [cexSqlItem] none none true true true true false
        [] zeroDist 10 none 0 = .ok [cexSqlItem] :=
  ⟨(claim_C8_amended {} [cexSqlItem] none none true true true [] zeroDist 10 none 0).1,
   (claim_C8_amended {} [cexSqlItem] none none true true true [] zeroDist 10 none 0).2 rfl rfl,
   by decide⟩

/-! ## Claim C9 -/

theorem goalBoost_eq_boostSpec (mp mc : Option ℚ) (item : MenuItem) :
    goalBoost mp mc item = boostSpec mp mc item := by
  unfold goalBoost boostSpec
  cases hpp : item.protein_g <;> cases hcc : item.calories <;>
    cases mp <;> cases mc <;> simp [hpp, hcc, ge_iff_le, mul_comm]

/-- C9: the parsed `min_protein` and `max_calories` bounds never change the
fused candidate set — `hybridCandidatesOf` is invariant under replacing them
— and they only adjust scores, by exactly the claimed boost table: the final
ranking adds the code's `goalBoost` to each candidate's score, and
`goalBoost` coincides pointwise with `boostSpec`, the table written from the
claim (+0.25 when the floor/ceiling is met, else +0.10 within 75% of the
floor resp. 125% of the ceiling, mutually exclusively). -/
theorem claim_C9_soft_goal_boosts (parsed : ParsedFilters) (mp mc : Option ℚ)
    (sqlItems : List MenuItem) (sqlError : Option String) (manual : Option ManualFilters)
    (utts usem pg eo xo : Bool) (db : List MenuItem) (dist : MenuItem → ℚ)
    (limit : Nat) (cd : Option Nat) (today : Nat) :
    hybridCandidatesOf { parsed with min_protein := mp, max_calories := mc }
        sqlItems sqlError manual utts usem pg eo xo db dist limit cd today
      = hybridCandidatesOf parsed sqlItems sqlError manual utts usem pg eo xo
        db dist limit cd today
  ∧ (∀ item, goalBoost mp mc item = boostSpec mp mc item)
  ∧ (∀ entries,
      hybridCandidatesOf { parsed with min_protein := mp, max_calories := mc }
          sqlItems sqlError manual utts usem pg eo xo db dist limit cd today = .ok entries →
      hybrid_retrieve { parsed with min_protein := mp, max_calories := mc }
          sqlItems sqlError manual utts usem pg eo xo db dist limit cd today
        = .ok (manualPostFilter manual
            ((((entries.map (fun e => (e.1, e.2.1, e.2.2 + boostSpec mp mc e.2.1))).insertionSort
                (fun a b => b.2.2 ≤ a.2.2)).take limit).map (fun e => e.2.1)))) := by
  refine ⟨rfl, goalBoost_eq_boostSpec mp mc, ?_⟩
  intro entries h
  unfold hybrid_retrieve
  rw [h]
  unfold hybridRank
  have hfun : (fun e : Entry => (e.1, e.2.1, e.2.2 + goalBoost mp mc e.2.1))
      = (fun e : Entry => (e.1, e.2.1, e.2.2 + boostSpec mp mc e.2.1)) := by
    funext e
    rw [goalBoost_eq_boostSpec]
  rw [show ({ parsed with min_protein := mp, max_calories := mc } : ParsedFilters).min_protein
      = mp from rfl,
    show ({ parsed with min_protein := mp, max_calories := mc } : ParsedFilters).max_calories
      = mc from rfl, hfun]

/-- Witness for C9 at a concrete instance. -/
theorem claim_C9_witness :
    hybridCandidatesOf { cexDietParsed with min_protein := some 30, max_calories := some 400 }
        [] none none true true true true true [cexDietItem] zeroDist 10 none 0
      = hybridCandidatesOf cexDietParsed [] none none true true true true true
        [cexDietItem] zeroDist 10 none 0
  ∧ goalBoost (some 30) (some 400) cexDietItem = boostSpec (some 30) (some 400) cexDietItem :=
  ⟨(claim_C9_soft_goal_boosts cexDietParsed (some 30) (some 400) [] none none
      true true true true true [cexDietItem] zeroDist 10 none 0).1,
   (claim_C9_soft_goal_boosts cexDietParsed (some 30) (some 400) [] none none
      true true true true true [cexDietItem] zeroDist 10 none 0).2.1 cexDietItem⟩

/-! ## Claim C2 -/

/-- C2 counterexample: with requested effective date 5 and database server
current date 7, the generated-SQL path returns the day-7 row: the sanitizer
injects `last_updated = CURRENT_DATE` — the server's date — regardless of
the caller's requested date, so not every returned item has the requested
effective date. -/
theorem claim_C2_counterexample :
    sanitize_sql canonicalGenQuery.data = .ok canonicalInjectedQuery.data
  ∧ evalCanonicalInjected 7 [day7Row] = [day7Row]
  ∧ day7Row.last_updated ≠ 5 :=
  ⟨by rfl, by decide, by decide⟩

/-- C2 amended: the hand-built SQL-filter path and the vector path return
only rows whose effective date equals the requested date (defaulting to the
caller's today); the generated-SQL path instead guarantees only that rows
match the database server's CURRENT_DATE — the sanitizer injects
`last_updated = CURRENT_DATE` when the generated query omits the date clause
— which coincides with the requested date only in the default case. -/
theorem claim_C2_amended :
    (∀ (f : LegacyFilters) (cd : Option Nat) (today : Nat) (r : MenuItem),
      build_sql_filters f cd today r = true → r.last_updated = cd.getD today)
  ∧ (∀ (pg : Bool) (db : List MenuItem) (dist : MenuItem → ℚ) (limit : Nat)
      (threshold : ℚ) (rd ea : List String) (hall meal : Option String)
      (cd : Option Nat) (today : Nat) (eo xo : Bool) (l : List MenuItem),
      semantic_search pg db dist limit threshold rd ea hall meal cd today eo xo = .ok l →
      ∀ r ∈ l, r.last_updated = cd.getD today)
  ∧ sanitize_sql canonicalGenQuery.data = .ok canonicalInjectedQuery.data
  ∧ (∀ (dbToday : Nat) (db : List MenuItem) (r : MenuItem),
      r ∈ evalCanonicalInjected dbToday db → r.last_updated = dbToday) := by
  refine ⟨?_, ?_, by rfl, ?_⟩
  · intro f cd today r h
    unfold build_sql_filters at h
    simp only [Bool.and_eq_true] at h
    exact eq_of_beq h.1.1.1.1.1.1.1
  · intro pg db dist limit threshold rd ea hall meal cd today eo xo l h r hr
    exact prefilter_date r rd ea hall meal (cd.getD today)
      (semantic_mem pg db dist limit threshold rd ea hall meal cd today eo xo l h r hr).1
  · intro dbToday db r hr
    unfold evalCanonicalInjected at hr
    have := List.of_mem_filter (List.take_subset _ _ hr)
    exact eq_of_beq this

/-- Witness for C2 amended at concrete rows and dates. -/
theorem claim_C2_witness :
    day5Row.last_updated = (some 5 : Option Nat).getD 0
  ∧ day7Row.last_updated = 7 :=
  ⟨claim_C2_amended.1 {} (some 5) 0 day5Row (by decide),
   claim_C2_amended.2.2.2 7 [day7Row] day7Row (by decide)⟩

/-! ## Substring-occurrence toolkit (for the failsafe-injection claim) -/

theorem prefix_length_le (p q : List Char) (h : p.isPrefixOf q = true) :
    p.length ≤ q.length :=
  (List.isPrefixOf_iff_prefix.mp h).length_le

theorem prefix_of_prefix_append (p x y : List Char) (h : p.isPrefixOf x = true) :
    p.isPrefixOf (x ++ y) = true :=
  List.isPrefixOf_iff_prefix.mpr
    ((List.isPrefixOf_iff_prefix.mp h).trans (List.prefix_append x y))

theorem prefix_append_left (p : List Char) :
    ∀ (x y : List Char), p.length ≤ x.length →
      p.isPrefixOf (x ++ y) = p.isPrefixOf x := by
  induction p with
  | nil => intro x y _; simp [List.isPrefixOf]
  | cons c p ih =>
    intro x y hle
    cases x with
    | nil => simp at hle
    | cons d x =>
      show (c == d && p.isPrefixOf (x ++ y)) = (c == d && p.isPrefixOf x)
      rw [ih x y (by simpa using hle)]

theorem prefix_append_split : ∀ (u p y : List Char),
    p.isPrefixOf (u ++ y) = true → u.length < p.length →
    u = p.take u.length ∧ (p.drop u.length).isPrefixOf y = true := by
  intro u
  induction u with
  | nil => intro p y h _; exact ⟨rfl, h⟩
  | cons d u ih =>
    intro p y h hl
    cases p with
    | nil => simp at hl
    | cons c p =>
      have h2 : (c == d) = true ∧ p.isPrefixOf (u ++ y) = true := by
        simpa [List.cons_append, List.isPrefixOf] using h
      obtain ⟨hcd, htl⟩ := h2
      obtain ⟨h3, h4⟩ := ih p y htl (by simpa using hl)
      have hcd2 : c = d := eq_of_beq hcd
      subst hcd2
      refine ⟨?_, h4⟩
      rw [List.length_cons, List.take_succ_cons, ← h3]

theorem occursAt_le (pat s : List Char) (i : Nat) (hp : pat ≠ [])
    (h : occursAt pat s i = true) : i + pat.length ≤ s.length := by
  have h1 : pat.length ≤ (s.drop i).length := prefix_length_le _ _ h
  rw [List.length_drop] at h1
  have h2 : 0 < pat.length := List.length_pos.mpr hp
  omega

theorem occursAt_take (pat s : List Char) (n i : Nat)
    (h : occursAt pat (s.take n) i = true) : occursAt pat s i = true := by
  unfold occursAt at h ⊢
  rw [List.isPrefixOf_iff_prefix] at h ⊢
  refine h.trans ?_
  rw [List.drop_take]
  exact List.take_prefix _ _

theorem occursAt_drop (pat s : List Char) (n i : Nat)
    (h : occursAt pat (s.drop n) i = true) : occursAt pat s (n + i) = true := by
  unfold occursAt at h ⊢
  have h2 : (s.drop n).drop i = s.drop (n + i) := by
    rw [List.drop_drop, Nat.add_comm]
  rwa [h2] at h

theorem containsSub_of_occursAt (pat s : List Char) (i : Nat) (hp : pat ≠ [])
    (h : occursAt pat s i = true) : containsSub pat s = true := by
  unfold containsSub
  rw [List.any_eq_true]
  have h1 := occursAt_le pat s i hp h
  have h2 : 0 < pat.length := List.length_pos.mpr hp
  exact ⟨i, List.mem_range.mpr (by omega), h⟩

theorem not_occursAt (pat s : List Char) (i : Nat) (hp : pat ≠ [])
    (hc : containsSub pat s = false) : occursAt pat s i = false := by
  cases h : occursAt pat s i
  · rfl
  · exact absurd (containsSub_of_occursAt pat s i hp h) (by simp [hc])

theorem occCount_nil (pat : List Char) (hp : pat ≠ []) : occCount pat [] = 0 := by
  cases pat with
  | nil => exact absurd rfl hp
  | cons c tl => rfl

theorem occCount_cons (pat : List Char) (c : Char) (t : List Char) :
    occCount pat (c :: t) =
      (if pat.isPrefixOf (c :: t) = true then 1 else 0) + occCount pat t := by
  unfold occCount
  have h1 : (c :: t).length + 1 = (t.length + 1) + 1 := rfl
  rw [h1, List.range_succ_eq_map, List.countP_cons, List.countP_map]
  have h2 : List.countP ((fun i => occursAt pat (c :: t) i) ∘ Nat.succ)
      (List.range (t.length + 1)) =
      List.countP (fun i => occursAt pat t i) (List.range (t.length + 1)) :=
    List.countP_congr (fun i _ => Iff.rfl)
  rw [h2]
  exact Nat.add_comm _ _

theorem occCount_zero (pat s : List Char) (hp : pat ≠ [])
    (hc : containsSub pat s = false) : occCount pat s = 0 := by
  unfold occCount
  rw [List.countP_eq_zero]
  intro i _
  simp [not_occursAt pat s i hp hc]

theorem occCount_append_ge (pat : List Char) (hp : pat ≠ []) :
    ∀ (x y : List Char), occCount pat x + occCount pat y ≤ occCount pat (x ++ y) := by
  intro x
  induction x with
  | nil => intro y; rw [occCount_nil pat hp, List.nil_append]; omega
  | cons c x ih =>
    intro y
    rw [List.cons_append, occCount_cons pat c (x ++ y), occCount_cons pat c x]
    have h := ih y
    cases hB : pat.isPrefixOf (c :: x) with
    | false => rw [if_neg Bool.false_ne_true]
               cases hA : pat.isPrefixOf (c :: (x ++ y)) with
               | false => rw [if_neg Bool.false_ne_true]; omega
               | true => rw [if_pos rfl]; omega
    | true =>
      rw [if_pos rfl]
      have hA : pat.isPrefixOf (c :: (x ++ y)) = true := by
        rw [← List.cons_append]
        exact prefix_of_prefix_append _ _ _ hB
      rw [hA, if_pos rfl]
      omega

theorem occCount_append (pat : List Char) (hp : pat ≠ []) :
    ∀ (x y : List Char),
    (∀ t, 0 < t → t < pat.length → x.drop (x.length - t) = pat.take t →
      (pat.drop t).isPrefixOf y = false) →
    occCount pat (x ++ y) = occCount pat x + occCount pat y := by
  intro x
  induction x with
  | nil =>
    intro y _
    rw [occCount_nil pat hp, List.nil_append]
    omega
  | cons c x ih =>
    intro y hc
    have hside : ∀ t, 0 < t → t < pat.length → x.drop (x.length - t) = pat.take t →
        (pat.drop t).isPrefixOf y = false := by
      intro t ht1 ht2 hsuf
      rcases le_or_lt t x.length with htx | htx
      · apply hc t ht1 ht2
        have hh : (c :: x).length - t = (x.length - t) + 1 := by
          simp only [List.length_cons]; omega
        rw [hh, List.drop_succ_cons, hsuf]
      · exfalso
        have h1 : x.length - t = 0 := by omega
        rw [h1, List.drop_zero] at hsuf
        have h2 := congrArg List.length hsuf
        rw [List.length_take] at h2
        omega
    rw [List.cons_append, occCount_cons pat c (x ++ y), occCount_cons pat c x,
      ih y hside]
    have hhead : pat.isPrefixOf (c :: (x ++ y)) = pat.isPrefixOf (c :: x) := by
      rcases Nat.lt_or_ge (c :: x).length pat.length with hl | hl
      · have hr : pat.isPrefixOf (c :: x) = false := by
          cases hh : pat.isPrefixOf (c :: x)
          · rfl
          · exact absurd (prefix_length_le _ _ hh) (by omega)
        have hll : pat.isPrefixOf (c :: (x ++ y)) = false := by
          cases hh : pat.isPrefixOf (c :: (x ++ y))
          · rfl
          · exfalso
            have hsplit := prefix_append_split (c :: x) pat y
              (by rw [List.cons_append]; exact hh) hl
            have ht := hc (c :: x).length (by simp) hl
              (by rw [Nat.sub_self, List.drop_zero]; exact hsplit.1)
            rw [ht] at hsplit
            exact Bool.false_ne_true hsplit.2
        rw [hr, hll]
      · rw [← List.cons_append]
        exact prefix_append_left pat (c :: x) y hl
    rw [hhead]
    omega

theorem occursAt_append_elim (pat x y : List Char) (i : Nat)
    (h : occursAt pat (x ++ y) i = true) :
    (occursAt pat x i = true ∧ i + pat.length ≤ x.length)
  ∨ (x.length ≤ i ∧ occursAt pat y (i - x.length) = true)
  ∨ (i < x.length ∧ x.length < i + pat.length
      ∧ x.drop i = pat.take (x.length - i)
      ∧ (pat.drop (x.length - i)).isPrefixOf y = true) := by
  unfold occursAt at h
  rcases Nat.lt_or_ge i x.length with hix | hix
  · have hd : (x ++ y).drop i = x.drop i ++ y := by
      rw [List.drop_append_eq_append_drop,
        Nat.sub_eq_zero_of_le (Nat.le_of_lt hix), List.drop_zero]
    rw [hd] at h
    rcases le_or_lt (i + pat.length) x.length with hfit | hfit
    · left
      refine ⟨?_, hfit⟩
      unfold occursAt
      rw [← prefix_append_left pat (x.drop i) y (by rw [List.length_drop]; omega)]
      exact h
    · right; right
      have hsp := prefix_append_split (x.drop i) pat y h
        (by rw [List.length_drop]; omega)
      rw [List.length_drop] at hsp
      exact ⟨hix, hfit, hsp.1, hsp.2⟩
  · right; left
    refine ⟨hix, ?_⟩
    unfold occursAt
    have hd : (x ++ y).drop i = y.drop (i - x.length) := by
      rw [List.drop_append_eq_append_drop, List.drop_eq_nil_of_le hix,
        List.nil_append]
    rwa [hd] at h

theorem find?_range_min : ∀ (n : Nat) (f : Nat → Bool) (p : Nat),
    (List.range n).find? f = some p → ∀ i, i < p → f i = false := by
  intro n
  induction n with
  | zero => intro f p h _ _; simp [List.range_zero] at h
  | succ n ih =>
    intro f p h i hip
    rw [List.range_succ_eq_map, List.find?_cons] at h
    split at h
    · cases h; omega
    · rename_i h0
      rw [List.find?_map] at h
      cases hq : (List.range n).find? (f ∘ Nat.succ) with
      | none => rw [hq] at h; simp at h
      | some q =>
        rw [hq] at h
        simp at h
        cases i with
        | zero => exact h0
        | succ j => exact ih (f ∘ Nat.succ) q hq j (by omega)

theorem firstOccur_some (pat s : List Char) (p : Nat)
    (h : firstOccur pat s = some p) :
    occursAt pat s p = true ∧ ∀ i, i < p → occursAt pat s i = false := by
  unfold firstOccur at h
  exact ⟨List.find?_some h, fun i hip => find?_range_min _ _ _ h i hip⟩

theorem firstOccur_none (pat s : List Char) (hp : pat ≠ [])
    (h : firstOccur pat s = none) : ∀ i, occursAt pat s i = false := by
  intro i
  unfold firstOccur at h
  rw [List.find?_eq_none] at h
  rcases Nat.lt_or_ge i (s.length + 1) with hi | hi
  · exact Bool.eq_false_iff.mpr (h i (List.mem_range.mpr hi))
  · cases hh : occursAt pat s i
    · rfl
    · have h1 := occursAt_le pat s i hp hh
      have h2 : 0 < pat.length := List.length_pos.mpr hp
      omega

theorem suffix_append_cases (u v w : List Char)
    (h : (u ++ v).drop ((u ++ v).length - w.length) = w) :
    (w.length ≤ v.length ∧ v.drop (v.length - w.length) = w)
  ∨ (v.length < w.length ∧ w.length - v.length ≤ u.length
      ∧ u.drop (u.length - (w.length - v.length)) = w.take (w.length - v.length)
      ∧ w.drop (w.length - v.length) = v) := by
  have hwlen : w.length ≤ (u ++ v).length := by
    have h0 := congrArg List.length h
    rw [List.length_drop] at h0
    omega
  rw [List.length_append] at hwlen
  rcases le_or_lt w.length v.length with hle | hlt
  · left
    refine ⟨hle, ?_⟩
    rw [List.drop_append_eq_append_drop,
      List.drop_eq_nil_of_le (show u.length ≤ (u ++ v).length - w.length by
        rw [List.length_append]; omega),
      List.nil_append] at h
    have h2 : (u ++ v).length - w.length - u.length = v.length - w.length := by
      rw [List.length_append]; omega
    rwa [h2] at h
  · right
    have hm : w.length - v.length ≤ u.length := by omega
    rw [List.drop_append_eq_append_drop] at h
    have hk0 : (u ++ v).length - w.length - u.length = 0 := by
      rw [List.length_append]; omega
    rw [hk0, List.drop_zero] at h
    have hk1 : (u ++ v).length - w.length = u.length - (w.length - v.length) := by
      rw [List.length_append]; omega
    rw [hk1] at h
    set A := u.drop (u.length - (w.length - v.length)) with hA
    have hdl : A.length = w.length - v.length := by
      rw [hA, List.length_drop]; omega
    refine ⟨hlt, hm, ?_, ?_⟩
    · rw [← h]
      have h5 : (A ++ v).length - v.length = A.length := by
        rw [List.length_append]; omega
      rw [h5, List.take_left]
    · rw [← h]
      have h5 : (A ++ v).length - v.length = A.length := by
        rw [List.length_append]; omega
      rw [h5, List.drop_left]

theorem wordOccursAt_imp (pat s : List Char) (i : Nat)
    (h : wordOccursAt pat s i = true) : occursAt pat s i = true := by
  unfold wordOccursAt at h
  simp only [Bool.and_eq_true] at h
  exact h.1.1

theorem wordCount_le_occCount (pat s : List Char) :
    wordCount pat s ≤ occCount pat s := by
  unfold wordCount occCount
  exact List.countP_mono_left (fun i _ h => wordOccursAt_imp pat s i h)

/-! ## Character-case and whitespace lemmas -/

theorem char_toNat_ofNat_lt (m : Nat) (h : m < 55296) : (Char.ofNat m).toNat = m := by
  unfold Char.ofNat
  rw [dif_pos (Or.inl h : Nat.isValidChar m)]
  rfl

theorem toLower_toUpper (c : Char) : c.toUpper.toLower = c.toLower := by
  simp only [Char.toUpper, Char.toLower]
  by_cases h : c.toNat ≥ 97 ∧ c.toNat ≤ 122
  · rw [if_pos h]
    have h1 : (Char.ofNat (c.toNat - 32)).toNat = c.toNat - 32 :=
      char_toNat_ofNat_lt _ (by omega)
    rw [h1, if_pos (by omega : c.toNat - 32 ≥ 65 ∧ c.toNat - 32 ≤ 90),
      if_neg (by omega : ¬(c.toNat ≥ 65 ∧ c.toNat ≤ 90)),
      (by omega : c.toNat - 32 + 32 = c.toNat), Char.ofNat_toNat]
  · rw [if_neg h]

theorem toUpper_toLower (c : Char) : c.toLower.toUpper = c.toUpper := by
  simp only [Char.toUpper, Char.toLower]
  by_cases h : c.toNat ≥ 65 ∧ c.toNat ≤ 90
  · rw [if_pos h]
    have h1 : (Char.ofNat (c.toNat + 32)).toNat = c.toNat + 32 :=
      char_toNat_ofNat_lt _ (by omega)
    rw [h1, if_pos (by omega : c.toNat + 32 ≥ 97 ∧ c.toNat + 32 ≤ 122),
      if_neg (by omega : ¬(c.toNat ≥ 97 ∧ c.toNat ≤ 122)),
      (by omega : c.toNat + 32 - 32 = c.toNat), Char.ofNat_toNat]
  · rw [if_neg h]

theorem isSpc_eq_false (c : Char) (h1 : c.toNat ≠ 32) (h2 : c.toNat ≠ 9)
    (h3 : c.toNat ≠ 10) (h4 : c.toNat ≠ 13) (h5 : c.toNat ≠ 11)
    (h6 : c.toNat ≠ 12) : isSpc c = false := by
  unfold isSpc
  rw [decide_eq_false (fun he => h1 (by rw [he]; rfl)),
    decide_eq_false (fun he => h2 (by rw [he]; rfl)),
    decide_eq_false (fun he => h3 (by rw [he]; rfl)),
    decide_eq_false (fun he => h4 (by rw [he]; rfl)),
    decide_eq_false (fun he => h5 (by rw [he]; rfl)),
    decide_eq_false (fun he => h6 (by rw [he]; rfl))]
  rfl

theorem isSpc_toUpper (c : Char) : isSpc c.toUpper = isSpc c := by
  simp only [Char.toUpper]
  by_cases h : c.toNat ≥ 97 ∧ c.toNat ≤ 122
  · rw [if_pos h]
    have h1 : (Char.ofNat (c.toNat - 32)).toNat = c.toNat - 32 :=
      char_toNat_ofNat_lt _ (by omega)
    rw [isSpc_eq_false _ (by omega) (by omega) (by omega) (by omega) (by omega)
        (by omega),
      isSpc_eq_false c (by omega) (by omega) (by omega) (by omega) (by omega)
        (by omega)]
  · rw [if_neg h]

theorem not_spc_of_toLower_s (c : Char) (h : c.toLower = 's') : isSpc c = false := by
  have hn : c.toNat = 83 ∨ c.toNat = 115 := by
    simp only [Char.toLower] at h
    by_cases hc : c.toNat ≥ 65 ∧ c.toNat ≤ 90
    · left
      rw [if_pos hc] at h
      have h1 := congrArg Char.toNat h
      rw [char_toNat_ofNat_lt _ (by omega)] at h1
      have h2 : ('s').toNat = 115 := rfl
      omega
    · right
      rw [if_neg hc] at h
      have h1 := congrArg Char.toNat h
      have h2 : ('s').toNat = 115 := rfl
      omega
  exact isSpc_eq_false c (by omega) (by omega) (by omega) (by omega) (by omega)
    (by omega)

theorem lowStr_upStr (s : List Char) : lowStr (upStr s) = lowStr s := by
  unfold lowStr upStr lowChar upChar
  rw [List.map_map]
  exact List.map_congr_left (fun c _ => toLower_toUpper c)

theorem upStr_lowStr (s : List Char) : upStr (lowStr s) = upStr s := by
  unfold lowStr upStr lowChar upChar
  rw [List.map_map]
  exact List.map_congr_left (fun c _ => toUpper_toLower c)

theorem length_lowStr (s : List Char) : (lowStr s).length = s.length :=
  List.length_map s lowChar

theorem lowStr_append (x y : List Char) : lowStr (x ++ y) = lowStr x ++ lowStr y :=
  List.map_append lowChar x y

theorem lowStr_take (s : List Char) (n : Nat) : lowStr (s.take n) = (lowStr s).take n :=
  List.map_take lowChar s n

theorem lowStr_drop (s : List Char) (n : Nat) : lowStr (s.drop n) = (lowStr s).drop n :=
  List.map_drop lowChar s n

theorem occursAt_map (f : Char → Char) (pat s : List Char) (i : Nat)
    (h : occursAt pat s i = true) : occursAt (pat.map f) (s.map f) i = true := by
  unfold occursAt at h ⊢
  rw [List.isPrefixOf_iff_prefix] at h ⊢
  rw [← List.map_drop]
  exact h.map f

theorem lstripWs_idem (u : List Char) : lstripWs (lstripWs u) = lstripWs u := by
  unfold lstripWs
  induction u with
  | nil => rfl
  | cons c t ih =>
    rw [List.dropWhile_cons]
    cases hc : isSpc c with
    | true => rw [if_pos rfl]; exact ih
    | false =>
      rw [if_neg Bool.false_ne_true, List.dropWhile_cons, hc,
        if_neg Bool.false_ne_true]

theorem lstripWs_rstripWs (u : List Char) (h : lstripWs u = u) :
    lstripWs (rstripWs u) = rstripWs u := by
  cases u with
  | nil => rfl
  | cons c t =>
    have hc : isSpc c = false := by
      unfold lstripWs at h
      rw [List.dropWhile_cons] at h
      cases hcc : isSpc c
      · rfl
      · rw [hcc, if_pos rfl] at h
        have h1 := congrArg List.length h
        have h2 := (List.dropWhile_sublist (l := t) isSpc).length_le
        rw [List.length_cons] at h1
        omega
    unfold rstripWs
    rw [List.reverse_cons, List.dropWhile_append]
    split
    · unfold lstripWs
      rw [show List.dropWhile isSpc [c] = [c] by
        rw [List.dropWhile_cons, hc, if_neg Bool.false_ne_true]]
      rw [List.reverse_cons, List.reverse_nil, List.nil_append,
        List.dropWhile_cons, hc, if_neg Bool.false_ne_true]
    · rw [List.reverse_append, List.reverse_cons, List.reverse_nil,
        List.nil_append, List.singleton_append]
      unfold lstripWs
      rw [List.dropWhile_cons, hc, if_neg Bool.false_ne_true]

theorem lstripWs_stripWs (x : List Char) : lstripWs (stripWs x) = stripWs x := by
  unfold stripWs
  exact lstripWs_rstripWs (lstripWs x) (lstripWs_idem x)

theorem lstripWs_cleanSql (x : List Char) : lstripWs (cleanSql x) = cleanSql x := by
  unfold cleanSql
  exact lstripWs_stripWs _

/-- Any occurrence of a space-headed token in a lowercased statement that
starts with `select` begins at index 6 or later. -/
theorem occ_space_ge_six (tok low r : List Char) (p : Nat)
    (hr : low = 's' :: 'e' :: 'l' :: 'e' :: 'c' :: 't' :: r)
    (hd : occursAt (' ' :: tok) low p = true) : 6 ≤ p := by
  by_contra hlt
  push_neg at hlt
  rw [hr] at hd
  interval_cases p
  · exact Bool.false_ne_true hd
  · exact Bool.false_ne_true hd
  · exact Bool.false_ne_true hd
  · exact Bool.false_ne_true hd
  · exact Bool.false_ne_true hd
  · exact Bool.false_ne_true hd

/-- A statement whose lowercase form starts with `select` is untouched by
`lstrip` and keeps its SELECT prefix. -/
theorem select_lstrip (out : List Char)
    (h : "select".data.isPrefixOf (lowStr out) = true) :
    lstripWs out = out ∧ "select".data.isPrefixOf (lowStr (lstripWs out)) = true := by
  cases out with
  | nil => exact absurd h (by decide)
  | cons o0 ot =>
    have hx : ('s' == o0.toLower && "elect".data.isPrefixOf (lowStr ot)) = true := h
    simp only [Bool.and_eq_true] at hx
    have hs : o0.toLower = 's' := (eq_of_beq hx.1).symm
    have hspc : isSpc o0 = false := not_spc_of_toLower_s o0 hs
    have hl : lstripWs (o0 :: ot) = o0 :: ot := by
      unfold lstripWs
      rw [List.dropWhile_cons, hspc, if_neg Bool.false_ne_true]
    exact ⟨hl, by rw [hl]; exact h⟩

/-! ## Splice lemmas for the failsafe date injection -/

theorem isPrefixOf_nil_false (p : List Char) (hp : p ≠ []) :
    p.isPrefixOf ([] : List Char) = false := by
  cases p with
  | nil => exact absurd rfl hp
  | cons c t => rfl

theorem occursAt_of_prefix (p1 p2 s : List Char) (i : Nat)
    (hp : p1.isPrefixOf p2 = true) (h : occursAt p2 s i = true) :
    occursAt p1 s i = true := by
  unfold occursAt at h ⊢
  rw [List.isPrefixOf_iff_prefix] at hp h ⊢
  exact hp.trans h

theorem occursAt_suffix_shift (u v s : List Char) (i : Nat)
    (h : occursAt (u ++ v) s i = true) : occursAt v s (i + u.length) = true := by
  unfold occursAt at h ⊢
  rw [List.isPrefixOf_iff_prefix] at h ⊢
  obtain ⟨r, hr⟩ := h
  refine ⟨r, ?_⟩
  have h2 : s.drop (i + u.length) = (s.drop i).drop u.length := by
    rw [List.drop_drop, Nat.add_comm]
  rw [h2, ← hr, List.append_assoc, List.drop_left]

theorem pred_not_in (low : List Char)
    (hinj : (containsSub "last_updated".data low
        && containsSub "current_date".data low) = false) :
    containsSub "last_updated = current_date".data low = false := by
  cases h : containsSub "last_updated = current_date".data low
  · rfl
  · exfalso
    unfold containsSub at h
    rw [List.any_eq_true] at h
    obtain ⟨i, _, hocc⟩ := h
    have h1 := occursAt_of_prefix "last_updated".data
      "last_updated = current_date".data low i (by decide) hocc
    have h2 := occursAt_suffix_shift "last_updated = ".data "current_date".data
      low i hocc
    have hc1 := containsSub_of_occursAt _ low i (by decide) h1
    have hc2 := containsSub_of_occursAt _ low _ (by decide) h2
    rw [hc1, hc2] at hinj
    simp at hinj

theorem containsSub_take_false (pat s : List Char) (n : Nat) (hp : pat ≠ [])
    (hc : containsSub pat s = false) : containsSub pat (s.take n) = false := by
  cases h : containsSub pat (s.take n)
  · rfl
  · exfalso
    unfold containsSub at h
    rw [List.any_eq_true] at h
    obtain ⟨i, _, hocc⟩ := h
    have h2 := containsSub_of_occursAt pat s i hp (occursAt_take pat s n i hocc)
    rw [h2] at hc
    exact Bool.false_ne_true hc.symm

theorem containsSub_drop_false (pat s : List Char) (n : Nat) (hp : pat ≠ [])
    (hc : containsSub pat s = false) : containsSub pat (s.drop n) = false := by
  cases h : containsSub pat (s.drop n)
  · rfl
  · exfalso
    unfold containsSub at h
    rw [List.any_eq_true] at h
    obtain ⟨i, _, hocc⟩ := h
    have h2 := containsSub_of_occursAt pat s (n + i) hp (occursAt_drop pat s n i hocc)
    rw [h2] at hc
    exact Bool.false_ne_true hc.symm

theorem occCount_take_drop_le (pat s : List Char) (hp : pat ≠ []) (a : Nat) :
    occCount pat (s.take a) + occCount pat (s.drop a) ≤ occCount pat s := by
  have h := occCount_append_ge pat hp (s.take a) (s.drop a)
  rwa [List.take_append_drop] at h

theorem occCount_splice (pat T INJ D APP : List Char) (hp : pat ≠ [])
    (hlen : pat.length ≤ INJ.length + 1)
    (hL : ∀ t ∈ List.range pat.length, 0 < t → (pat.drop t).isPrefixOf INJ = false)
    (hR : ∀ t ∈ List.range pat.length, 0 < t →
      INJ.drop (INJ.length - t) = pat.take t → False)
    (hApp : ∀ t ∈ List.range pat.length, 0 < t → (pat.drop t).isPrefixOf APP = false) :
    occCount pat (T ++ (INJ ++ (D ++ APP)))
      = occCount pat T + (occCount pat INJ + (occCount pat D + occCount pat APP)) := by
  have hcT : ∀ t, 0 < t → t < pat.length →
      T.drop (T.length - t) = pat.take t →
      (pat.drop t).isPrefixOf (INJ ++ (D ++ APP)) = false := by
    intro t ht1 ht2 _
    have hple : (pat.drop t).length ≤ INJ.length := by rw [List.length_drop]; omega
    rw [prefix_append_left _ INJ (D ++ APP) hple]
    exact hL t (List.mem_range.mpr ht2) ht1
  have hcI : ∀ t, 0 < t → t < pat.length →
      INJ.drop (INJ.length - t) = pat.take t →
      (pat.drop t).isPrefixOf (D ++ APP) = false := by
    intro t ht1 ht2 hsuf
    exact (hR t (List.mem_range.mpr ht2) ht1 hsuf).elim
  have hcD : ∀ t, 0 < t → t < pat.length →
      D.drop (D.length - t) = pat.take t →
      (pat.drop t).isPrefixOf APP = false := by
    intro t ht1 ht2 _
    exact hApp t (List.mem_range.mpr ht2) ht1
  rw [occCount_append pat hp T (INJ ++ (D ++ APP)) hcT,
    occCount_append pat hp INJ (D ++ APP) hcI,
    occCount_append pat hp D APP hcD]

theorem spliced_tok_bound (tok T INJ D : List Char) (okk : Nat)
    (htok : tok ≠ [])
    (hlen : tok.length ≤ INJ.length)
    (hok2 : okk ≤ INJ.length)
    (hT : ∀ i, occursAt tok T i = true → i + tok.length ≤ T.length → False)
    (hInj : containsSub tok INJ = false)
    (hLT : ∀ i, i < T.length → T.length < i + tok.length →
      T.drop i = tok.take (T.length - i) →
      (tok.drop (T.length - i)).isPrefixOf INJ = true → False)
    (hR : ∀ t ∈ List.range tok.length, 0 < t →
      INJ.drop (INJ.length - t) = tok.take t → okk + t ≤ INJ.length) :
    ∀ i, occursAt tok (T ++ (INJ ++ D)) i = true → T.length + okk ≤ i := by
  intro i hi
  rcases occursAt_append_elim tok T (INJ ++ D) i hi with
    ⟨h1, h2⟩ | ⟨h1, h2⟩ | ⟨h1, h2, h3, h4⟩
  · exact (hT i h1 h2).elim
  · rcases occursAt_append_elim tok INJ D (i - T.length) h2 with
      ⟨g1, g2⟩ | ⟨g1, g2⟩ | ⟨g1, g2, g3, g4⟩
    · exact absurd (containsSub_of_occursAt tok INJ _ htok g1) (by simp [hInj])
    · omega
    · have hmem : INJ.length - (i - T.length) ∈ List.range tok.length :=
        List.mem_range.mpr (by omega)
      have ht := hR _ hmem (by omega) (by
        have hm : INJ.length - (INJ.length - (i - T.length)) = i - T.length := by
          omega
        rw [hm]; exact g3)
      omega
  · exfalso
    have hple : (tok.drop (T.length - i)).length ≤ INJ.length := by
      rw [List.length_drop]; omega
    rw [prefix_append_left _ INJ D hple] at h4
    exact hLT i h1 h2 h3 h4

theorem inT_kill (tok low : List Char) (a : Nat) (htok : tok ≠ [])
    (hanchor : ∀ i ∈ List.range (low.length + 1),
      occursAt tok low i = true → a ≤ i) :
    ∀ i, occursAt tok (low.take a) i = true →
      i + tok.length ≤ (low.take a).length → False := by
  intro i h1 h2
  have h3 := occursAt_take tok low a i h1
  have h4 := occursAt_le tok low i htok h3
  have h6 := List.length_pos.mpr htok
  have h5 := hanchor i (List.mem_range.mpr (by omega)) h3
  rw [List.length_take] at h2
  omega

theorem occursAt_splice_inj (pat T INJ D : List Char) (o : Nat)
    (h : occursAt pat INJ o = true) (hw : o ≤ INJ.length) :
    occursAt pat (T ++ (INJ ++ D)) (T.length + o) = true := by
  unfold occursAt at h ⊢
  rw [List.drop_append, List.drop_append_eq_append_drop,
    Nat.sub_eq_zero_of_le hw, List.drop_zero]
  exact prefix_of_prefix_append _ _ _ h

theorem prefix_take_append (p s rest : List Char) (a : Nat)
    (hp : p.isPrefixOf s = true) (ha : p.length ≤ a) :
    p.isPrefixOf (s.take a ++ rest) = true := by
  rw [List.isPrefixOf_iff_prefix] at hp ⊢
  obtain ⟨r, hr⟩ := hp
  rw [← hr, List.take_append_eq_append_take,
    List.take_of_length_le (by omega : p.length ≤ a), List.append_assoc]
  exact List.prefix_append p _

theorem singleSelect_intro (out : List Char)
    (h1 : "select".data.isPrefixOf (lowStr out) = true)
    (h2 : out.contains ';' = false)
    (h3 : wordCount "where".data (lowStr out) ≤ 1) :
    singleSelectNecessary out = true := by
  unfold singleSelectNecessary
  obtain ⟨hl, hp⟩ := select_lstrip out h1
  rw [hl, h1, h2, decide_eq_true h3]
  simp

theorem occursAt_take_suffix (w low : List Char) (a : Nat)
    (ha : a ≤ low.length) (hwa : w.length ≤ a)
    (hsuf : (low.take a).drop (a - w.length) = w)
    (hnext : (' ' :: ([] : List Char)).isPrefixOf (low.drop a) = true) :
    occursAt (w ++ [' ']) low (a - w.length) = true := by
  unfold occursAt
  rw [List.isPrefixOf_iff_prefix] at hnext ⊢
  obtain ⟨r, hr⟩ := hnext
  have h0 : low = low.take a ++ low.drop a := (List.take_append_drop a low).symm
  have h1 : (low.take a).length = a := by
    rw [List.length_take]; omega
  have hsplit : low.drop (a - w.length)
      = (low.take a).drop (a - w.length) ++ low.drop a := by
    calc low.drop (a - w.length)
        = (low.take a ++ low.drop a).drop (a - w.length) := by rw [← h0]
      _ = (low.take a).drop (a - w.length) ++ low.drop a := by
          rw [List.drop_append_eq_append_drop, h1]
          have h2 : a - w.length - a = 0 := by omega
          rw [h2, List.drop_zero]
  rw [hsplit, hsuf, ← hr]
  exact ⟨r, by rw [List.append_assoc]⟩

set_option maxHeartbeats 1000000 in
theorem sanitize_ok_out (s out : List Char) (hclean : cleanSql s = s)
    (h : sanitize_sql s = .ok out) :
    out = injectDate s ∨ out = injectDate s ++ " LIMIT 25".data := by
  unfold sanitize_sql at h
  rw [hclean] at h
  split at h
  · exact absurd h (by simp)
  · split at h
    · exact absurd h (by simp)
    · split at h
      · exact absurd h (by simp)
      · split at h
        · exact absurd h (by simp)
        · split at h
          · exact absurd h (by simp)
          · split at h
            · exact Or.inl (Except.ok.inj h).symm
            · exact Or.inr (Except.ok.inj h).symm

/-- Kill a left-boundary crossing into the injected text when no proper tail
of the token is a prefix of the injected text (fully concrete check). -/
theorem hLT_concrete (tok INJ T : List Char)
    (hconc : ∀ t ∈ List.range tok.length, 0 < t →
      (tok.drop t).isPrefixOf INJ = false) :
    ∀ i, i < T.length → T.length < i + tok.length →
      T.drop i = tok.take (T.length - i) →
      (tok.drop (T.length - i)).isPrefixOf INJ = true → False := by
  intro i h1 h2 _ h4
  exact Bool.false_ne_true ((hconc (T.length - i)
    (List.mem_range.mpr (by omega)) (by omega)).symm.trans h4)

/-- Kill a left-boundary crossing into `" WHERE …"`-style injected text: the
only token tail that survives the concrete check is the lone trailing space,
which forces the prefix of the statement to end with the token body; together
with the space at the splice point that is a full token occurrence before the
anchor, contradicting the clause-order hypothesis. -/
theorem hLT_from_anchor (tokBody low INJ : List Char) (a K : Nat)
    (hK : K = tokBody.length)
    (hconc : ∀ t ∈ List.range (K + 1), 0 < t → t ≠ K →
      ((tokBody ++ [' ']).drop t).isPrefixOf INJ = false)
    (ha : a ≤ low.length)
    (hnext : (' ' :: ([] : List Char)).isPrefixOf (low.drop a) = true)
    (hanchor : ∀ i ∈ List.range (low.length + 1),
      occursAt (tokBody ++ [' ']) low i = true → a ≤ i) :
    ∀ i, i < (low.take a).length →
      (low.take a).length < i + (tokBody ++ [' ']).length →
      (low.take a).drop i = (tokBody ++ [' ']).take ((low.take a).length - i) →
      ((tokBody ++ [' ']).drop ((low.take a).length - i)).isPrefixOf INJ = true →
      False := by
  intro i h1 h2 h3 h4
  have hTlen : (low.take a).length = a := by rw [List.length_take]; omega
  have hlap : (tokBody ++ [' ']).length = K + 1 := by
    rw [List.length_append, hK]; rfl
  rw [hTlen] at h1 h2 h3 h4
  rw [hlap] at h2
  by_cases htK : a - i = K
  · have hKa : K ≤ a := by omega
    have hieq : i = a - K := by omega
    rw [hieq] at h3
    have ht2 : a - (a - K) = K := by omega
    rw [ht2] at h3
    have htake : (tokBody ++ [' ']).take K = tokBody := by
      have h5 := List.take_left tokBody [' ']
      rwa [← hK] at h5
    rw [htake] at h3
    have hsuf : (low.take a).drop (a - tokBody.length) = tokBody := by
      rw [← hK]
      exact h3
    have hocc := occursAt_take_suffix tokBody low a ha (by omega) hsuf hnext
    have hne : (tokBody ++ [' ']) ≠ [] := by simp
    have hle := occursAt_le _ low _ hne hocc
    rw [hlap] at hle
    have hb := hanchor (a - tokBody.length) (List.mem_range.mpr (by omega)) hocc
    omega
  · exact Bool.false_ne_true ((hconc (a - i)
      (List.mem_range.mpr (by omega)) (by omega) htK).symm.trans h4)

/-- Same as `hLT_from_anchor` for the last branch, where the text before the
splice point is the whole statement: the crossing forces the statement to end
in the middle of a clause keyword, excluded by hypothesis. -/
theorem hLT_from_tail (tokBody low INJ : List Char) (a K : Nat)
    (hK : K = tokBody.length)
    (haL : a = low.length)
    (hconc : ∀ t ∈ List.range (K + 1), 0 < t → t ≠ K →
      ((tokBody ++ [' ']).drop t).isPrefixOf INJ = false)
    (htail : ∀ t ∈ List.range (K + 1), 0 < t →
      low.drop (low.length - t) ≠ (tokBody ++ [' ']).take t) :
    ∀ i, i < (low.take a).length →
      (low.take a).length < i + (tokBody ++ [' ']).length →
      (low.take a).drop i = (tokBody ++ [' ']).take ((low.take a).length - i) →
      ((tokBody ++ [' ']).drop ((low.take a).length - i)).isPrefixOf INJ = true →
      False := by
  intro i h1 h2 h3 h4
  have hTlen : (low.take a).length = a := by rw [List.length_take]; omega
  have hlap : (tokBody ++ [' ']).length = K + 1 := by
    rw [List.length_append, hK]; rfl
  rw [hTlen] at h1 h2 h3 h4
  rw [hlap] at h2
  have hl2 : low.take a = low := by rw [haL, List.take_length]
  rw [hl2] at h3
  have h5 : low.length - (a - i) = i := by omega
  have h3c : low.drop (low.length - (a - i)) = (tokBody ++ [' ']).take (a - i) := by
    rw [h5]; exact h3
  exact htail (a - i) (List.mem_range.mpr (by omega)) (by omega) h3c

/-- Core of the amended failsafe-injection claim: if the sanitizer output is
the statement with the dated injection text spliced in at position `a` (with
the date predicate at offset `o` of the injected text, and possibly a
`LIMIT 25` appended), and the statement satisfies the clause-shape
hypotheses, then the output has exactly one date predicate, positioned
before every ORDER BY / LIMIT token, and passes the single-SELECT checks. -/
theorem c3_core (s out INJU APPu : List Char) (a o : Nat)
    (houtU : out = (s.take a ++ INJU) ++ (s.drop a ++ APPu))
    (hINJ : (INJU = "last_updated = CURRENT_DATE AND ".data ∧ o = 0)
      ∨ (INJU = " WHERE last_updated = CURRENT_DATE".data ∧ o = 7))
    (hAPPu : APPu = ([] : List Char) ∨ APPu = " LIMIT 25".data)
    (ha : a ≤ s.length)
    (ha6 : 6 ≤ a)
    (hsel : "select".data.isPrefixOf (lowStr s) = true)
    (hsemi : s.contains ';' = false)
    (hpredlow : containsSub "last_updated = current_date".data (lowStr s) = false)
    (hwcap : occCount "where".data (lowStr s)
      + occCount "where".data (lowStr INJU) ≤ 1)
    (hanchorO : ∀ i ∈ List.range (s.length + 1),
      occursAt " order by ".data (lowStr s) i = true → a ≤ i)
    (hanchorL : ∀ i ∈ List.range (s.length + 1),
      occursAt " limit ".data (lowStr s) i = true → a ≤ i)
    (hLTO : ∀ i, i < ((lowStr s).take a).length →
      ((lowStr s).take a).length < i + (" order by ".data).length →
      ((lowStr s).take a).drop i
        = " order by ".data.take (((lowStr s).take a).length - i) →
      (" order by ".data.drop (((lowStr s).take a).length - i)).isPrefixOf
        (lowStr INJU) = true → False)
    (hLTL : ∀ i, i < ((lowStr s).take a).length →
      ((lowStr s).take a).length < i + (" limit ".data).length →
      ((lowStr s).take a).drop i
        = " limit ".data.take (((lowStr s).take a).length - i) →
      (" limit ".data.drop (((lowStr s).take a).length - i)).isPrefixOf
        (lowStr INJU) = true → False) :
    ∃ j, occursAt "last_updated = current_date".data (lowStr out) j = true
      ∧ occCount "last_updated = current_date".data (lowStr out) = 1
      ∧ (∀ i, occursAt " order by ".data (lowStr out) i = true → j + 27 ≤ i)
      ∧ (∀ i, occursAt " limit ".data (lowStr out) i = true → j + 27 ≤ i)
      ∧ singleSelectNecessary out = true := by
  have h27 : ("last_updated = current_date".data).length = 27 := rfl
  have h10t : (" order by ".data).length = 10 := rfl
  have h7t : (" limit ".data).length = 7 := rfl
  have h5t : ("where".data).length = 5 := rfl
  have h6t : ("select".data).length = 6 := rfl
  have hIlen : o + 27 ≤ (lowStr INJU).length ∧ 10 ≤ (lowStr INJU).length := by
    rcases hINJ with ⟨rfl, rfl⟩ | ⟨rfl, rfl⟩ <;> exact ⟨by decide, by decide⟩
  have hIpred : occursAt "last_updated = current_date".data (lowStr INJU) o = true := by
    rcases hINJ with ⟨rfl, rfl⟩ | ⟨rfl, rfl⟩ <;> decide
  have hIpredC : occCount "last_updated = current_date".data (lowStr INJU) = 1 := by
    rcases hINJ with ⟨rfl, rfl⟩ | ⟨rfl, rfl⟩ <;> decide
  have hpredL : ∀ t ∈ List.range ("last_updated = current_date".data.length), 0 < t →
      ("last_updated = current_date".data.drop t).isPrefixOf (lowStr INJU) = false := by
    rcases hINJ with ⟨rfl, rfl⟩ | ⟨rfl, rfl⟩ <;> decide
  have hpredR : ∀ t ∈ List.range ("last_updated = current_date".data.length), 0 < t →
      (lowStr INJU).drop ((lowStr INJU).length - t)
        = "last_updated = current_date".data.take t → False := by
    rcases hINJ with ⟨rfl, rfl⟩ | ⟨rfl, rfl⟩ <;> decide
  have hwhL : ∀ t ∈ List.range ("where".data.length), 0 < t →
      ("where".data.drop t).isPrefixOf (lowStr INJU) = false := by
    rcases hINJ with ⟨rfl, rfl⟩ | ⟨rfl, rfl⟩ <;> decide
  have hwhR : ∀ t ∈ List.range ("where".data.length), 0 < t →
      (lowStr INJU).drop ((lowStr INJU).length - t)
        = "where".data.take t → False := by
    rcases hINJ with ⟨rfl, rfl⟩ | ⟨rfl, rfl⟩ <;> decide
  have hOInj : containsSub " order by ".data (lowStr INJU) = false := by
    rcases hINJ with ⟨rfl, rfl⟩ | ⟨rfl, rfl⟩ <;> decide
  have hLInj : containsSub " limit ".data (lowStr INJU) = false := by
    rcases hINJ with ⟨rfl, rfl⟩ | ⟨rfl, rfl⟩ <;> decide
  have hOR : ∀ t ∈ List.range (" order by ".data.length), 0 < t →
      (lowStr INJU).drop ((lowStr INJU).length - t) = " order by ".data.take t →
      (o + 27) + t ≤ (lowStr INJU).length := by
    rcases hINJ with ⟨rfl, rfl⟩ | ⟨rfl, rfl⟩ <;> decide
  have hLR : ∀ t ∈ List.range (" limit ".data.length), 0 < t →
      (lowStr INJU).drop ((lowStr INJU).length - t) = " limit ".data.take t →
      (o + 27) + t ≤ (lowStr INJU).length := by
    rcases hINJ with ⟨rfl, rfl⟩ | ⟨rfl, rfl⟩ <;> decide
  have hIsemi : (';' : Char) ∈ INJU → False := by
    rcases hINJ with ⟨rfl, rfl⟩ | ⟨rfl, rfl⟩ <;> decide
  have hApred : ∀ t ∈ List.range ("last_updated = current_date".data.length), 0 < t →
      ("last_updated = current_date".data.drop t).isPrefixOf (lowStr APPu) = false := by
    rcases hAPPu with rfl | rfl <;> decide
  have hAwh : ∀ t ∈ List.range ("where".data.length), 0 < t →
      ("where".data.drop t).isPrefixOf (lowStr APPu) = false := by
    rcases hAPPu with rfl | rfl <;> decide
  have hApredC : occCount "last_updated = current_date".data (lowStr APPu) = 0 := by
    rcases hAPPu with rfl | rfl <;> decide
  have hAwhC : occCount "where".data (lowStr APPu) = 0 := by
    rcases hAPPu with rfl | rfl <;> decide
  have hAsemi : (';' : Char) ∈ APPu → False := by
    rcases hAPPu with rfl | rfl <;> simp
  have houtlow : lowStr out
      = (lowStr s).take a ++ (lowStr INJU ++ ((lowStr s).drop a ++ lowStr APPu)) := by
    rw [houtU, lowStr_append, lowStr_append, lowStr_append, lowStr_take,
      lowStr_drop, List.append_assoc]
  have hTlen : ((lowStr s).take a).length = a := by
    rw [List.length_take, length_lowStr]; omega
  have halow : a ≤ (lowStr s).length := by rw [length_lowStr]; omega
  have hanchorO2 : ∀ i ∈ List.range ((lowStr s).length + 1),
      occursAt " order by ".data (lowStr s) i = true → a ≤ i := by
    intro i him hocc
    exact hanchorO i (by rwa [length_lowStr] at him) hocc
  have hanchorL2 : ∀ i ∈ List.range ((lowStr s).length + 1),
      occursAt " limit ".data (lowStr s) i = true → a ≤ i := by
    intro i him hocc
    exact hanchorL i (by rwa [length_lowStr] at him) hocc
  refine ⟨a + o, ?_, ?_, ?_, ?_, ?_⟩
  · rw [houtlow]
    have h := occursAt_splice_inj "last_updated = current_date".data
      ((lowStr s).take a) (lowStr INJU) ((lowStr s).drop a ++ lowStr APPu) o
      hIpred (by omega)
    rwa [hTlen] at h
  · rw [houtlow, occCount_splice _ _ _ _ _ (by decide) (by omega) hpredL hpredR
      hApred,
      occCount_zero _ _ (by decide)
        (containsSub_take_false _ _ a (by decide) hpredlow),
      occCount_zero _ _ (by decide)
        (containsSub_drop_false _ _ a (by decide) hpredlow),
      hIpredC, hApredC]
  · rw [houtlow]
    intro i hi
    have hb := spliced_tok_bound " order by ".data ((lowStr s).take a)
      (lowStr INJU) ((lowStr s).drop a ++ lowStr APPu) (o + 27) (by decide)
      (by have := hIlen.2; omega) (by have := hIlen.1; omega)
      (inT_kill _ _ a (by decide) hanchorO2) hOInj hLTO hOR i hi
    rw [hTlen] at hb
    omega
  · rw [houtlow]
    intro i hi
    have hb := spliced_tok_bound " limit ".data ((lowStr s).take a)
      (lowStr INJU) ((lowStr s).drop a ++ lowStr APPu) (o + 27) (by decide)
      (by have := hIlen.2; omega) (by have := hIlen.1; omega)
      (inT_kill _ _ a (by decide) hanchorL2) hLInj hLTL hLR i hi
    rw [hTlen] at hb
    omega
  · apply singleSelect_intro
    · rw [houtlow]
      exact prefix_take_append _ _ _ a hsel (by
        have h6 : ("select".data).length = 6 := rfl
        omega)
    · cases hq : out.contains ';'
      · rfl
      · exfalso
        have hmem : (';' : Char) ∈ out := List.elem_iff.mp hq
        rw [houtU] at hmem
        rcases List.mem_append.mp hmem with h | h
        · rcases List.mem_append.mp h with h2 | h2
          · have h3 := List.take_subset a s h2
            have h4 : s.contains ';' = true := List.elem_iff.mpr h3
            rw [h4] at hsemi
            exact Bool.false_ne_true hsemi.symm
          · exact hIsemi h2
        · rcases List.mem_append.mp h with h2 | h2
          · have h3 := List.drop_subset a s h2
            have h4 : s.contains ';' = true := List.elem_iff.mpr h3
            rw [h4] at hsemi
            exact Bool.false_ne_true hsemi.symm
          · exact hAsemi h2
    · refine le_trans (wordCount_le_occCount _ _) ?_
      rw [houtlow, occCount_splice _ _ _ _ _ (by decide)
        (by have := hIlen.2; omega) hwhL hwhR hAwh, hAwhC]
      have hTD := occCount_take_drop_le "where".data (lowStr s) (by decide) a
      omega

/-! ## Claim C3 -/

/-- C3 counterexample: the statement `newlineWhereQuery`, whose WHERE keyword
is followed by a newline, passes every rejection check of `sanitize_sql` and
lacks a date predicate, yet the sanitized output is not a single valid
SELECT: the injector misses the newline-delimited WHERE (it searches for the
space-delimited `" where "`) and splices a second WHERE clause, so the output
contains two WHERE keywords. -/
theorem claim_C3_counterexample :
    sanitize_sql newlineWhereQuery.data = .ok newlineWhereOut.data
  ∧ (containsSub "last_updated".data (lowStr (cleanSql newlineWhereQuery.data))
      && containsSub "current_date".data (lowStr (cleanSql newlineWhereQuery.data))) = false
  ∧ wordCount "where".data (lowStr newlineWhereOut.data) = 2
  ∧ singleSelectNecessary newlineWhereOut.data = false :=
  ⟨by rfl, by decide, by decide, by decide⟩

set_option maxHeartbeats 1000000 in
/-- C3 (amended): for every cleaned statement accepted by `sanitize_sql` that
lacks a date predicate (does not reference both `last_updated` and
`current_date`), PROVIDED the statement is clause-shaped — its only `where`
keyword occurrences are the space-delimited one found by the injector (none
if there is none), every ` order by ` / ` limit ` token sits at or after the
splice point, and the statement does not end in the middle of a clause
keyword — the sanitized output contains exactly one date-equality predicate
`last_updated = current_date` (case-insensitively), every ` order by ` and
` limit ` token of the output starts after that predicate ends, and the
output still starts with SELECT, contains no statement separator, and has at
most one WHERE keyword.  The counterexample shows the claim fails without
the clause-shape proviso (a newline-delimited WHERE yields a second spliced
WHERE clause). -/
theorem claim_C3_amended (s out : List Char)
    (hclean : cleanSql s = s)
    (hok : sanitize_sql s = .ok out)
    (hinj : (containsSub "last_updated".data (lowStr s)
        && containsSub "current_date".data (lowStr s)) = false)
    (hwhere : occCount "where".data (lowStr s)
        = (if (firstOccur " where ".data (lowStr s)).isSome then 1 else 0))
    (horder : ∀ i ∈ List.range (s.length + 1),
        occursAt " order by ".data (lowStr s) i = true → injAnchor s ≤ i)
    (hlimit : ∀ i ∈ List.range (s.length + 1),
        occursAt " limit ".data (lowStr s) i = true → injAnchor s ≤ i)
    (htailO : ∀ t ∈ List.range 10, 0 < t →
        (lowStr s).drop ((lowStr s).length - t) ≠ " order by ".data.take t)
    (htailL : ∀ t ∈ List.range 7, 0 < t →
        (lowStr s).drop ((lowStr s).length - t) ≠ " limit ".data.take t) :
    ∃ j, occursAt "last_updated = current_date".data (lowStr out) j = true
      ∧ occCount "last_updated = current_date".data (lowStr out) = 1
      ∧ (∀ i, occursAt " order by ".data (lowStr out) i = true → j + 27 ≤ i)
      ∧ (∀ i, occursAt " limit ".data (lowStr out) i = true → j + 27 ≤ i)
      ∧ singleSelectNecessary out = true := by
  have h7w : (" where ".data).length = 7 := rfl
  have h10t : (" order by ".data).length = 10 := rfl
  have h7t : (" limit ".data).length = 7 := rfl
  have hchecks := sanitize_ok_checks s out hok
  rw [hclean] at hchecks
  have hSELu := hchecks.2.2.1
  have hsemi := hchecks.2.2.2.1
  have hlst : lstripWs s = s := by
    rw [← hclean]; exact lstripWs_cleanSql s
  have hup : lstripWs (upStr s) = upStr s := by
    unfold lstripWs upStr
    rw [List.dropWhile_map]
    have he : (isSpc ∘ upChar) = isSpc := funext (fun c => isSpc_toUpper c)
    rw [he]
    unfold lstripWs at hlst
    rw [hlst]
  have hSELu2 : "SELECT".data.isPrefixOf (upStr s) = true := by
    rwa [hup] at hSELu
  have hsel : "select".data.isPrefixOf (lowStr s) = true := by
    rw [List.isPrefixOf_iff_prefix] at hSELu2 ⊢
    have h2 := hSELu2.map Char.toLower
    have e1 : "SELECT".data.map Char.toLower = "select".data := by decide
    have e2 : (upStr s).map Char.toLower = lowStr s := lowStr_upStr s
    rwa [e1, e2] at h2
  have hpredlow := pred_not_in (lowStr s) hinj
  have hload := sanitize_ok_out s out hclean hok
  have hsellen : 6 ≤ s.length := by
    have hp := prefix_length_le _ _ hsel
    rw [length_lowStr] at hp
    have h6 : ("select".data).length = 6 := rfl
    omega
  obtain ⟨r, hr⟩ := List.isPrefixOf_iff_prefix.mp hsel
  cases hw : firstOccur " where ".data (lowStr s) with
  | some p =>
    have hwocc := (firstOccur_some _ _ p hw).1
    have hple : p + 7 ≤ s.length := by
      have h := occursAt_le _ _ p (by decide) hwocc
      rw [length_lowStr] at h
      omega
    have hA : injAnchor s = p + 7 := by
      simp [injAnchor, hw]
    have hID : injectDate s
        = s.take (p + 7) ++ "last_updated = CURRENT_DATE AND ".data
          ++ s.drop (p + 7) := by
      simp only [injectDate]
      rw [hinj, if_neg Bool.false_ne_true]
      simp only [hw]
    have hanchorO : ∀ i ∈ List.range (s.length + 1),
        occursAt " order by ".data (lowStr s) i = true → p + 7 ≤ i := by
      intro i him hocc
      have hb := horder i him hocc
      omega
    have hanchorL : ∀ i ∈ List.range (s.length + 1),
        occursAt " limit ".data (lowStr s) i = true → p + 7 ≤ i := by
      intro i him hocc
      have hb := hlimit i him hocc
      omega
    have hwcap : occCount "where".data (lowStr s)
        + occCount "where".data
          (lowStr "last_updated = CURRENT_DATE AND ".data) ≤ 1 := by
      have h : occCount "where".data (lowStr s) = 1 := by
        rw [hwhere, hw]; rfl
      have hI0 : occCount "where".data
          (lowStr "last_updated = CURRENT_DATE AND ".data) = 0 := by decide
      omega
    rcases hload with hOut | hOut
    · exact c3_core s out _ [] (p + 7) 0
        (by rw [hOut, hID]; simp [List.append_assoc])
        (Or.inl ⟨rfl, rfl⟩) (Or.inl rfl) hple (by omega) hsel hsemi hpredlow
        hwcap hanchorO hanchorL
        (hLT_concrete _ _ _ (by decide)) (hLT_concrete _ _ _ (by decide))
    · exact c3_core s out _ (" LIMIT 25".data) (p + 7) 0
        (by rw [hOut, hID]; simp [List.append_assoc])
        (Or.inl ⟨rfl, rfl⟩) (Or.inr rfl) hple (by omega) hsel hsemi hpredlow
        hwcap hanchorO hanchorL
        (hLT_concrete _ _ _ (by decide)) (hLT_concrete _ _ _ (by decide))
  | none =>
    have hwzero : occCount "where".data (lowStr s) = 0 := by
      rw [hwhere, hw]; rfl
    have hI1 : occCount "where".data
        (lowStr " WHERE last_updated = CURRENT_DATE".data) = 1 := by decide
    cases ho : firstOccur " order by ".data (lowStr s) with
    | some p =>
      have hoocc := (firstOccur_some _ _ p ho).1
      have hple : p + 10 ≤ s.length := by
        have h := occursAt_le _ _ p (by decide) hoocc
        rw [length_lowStr] at h
        omega
      have ha6 : 6 ≤ p :=
        occ_space_ge_six "order by ".data (lowStr s) r p hr.symm hoocc
      have hA : injAnchor s = p := by
        simp [injAnchor, hw, ho]
      have hID : injectDate s
          = s.take p ++ " WHERE last_updated = CURRENT_DATE".data ++ s.drop p := by
        simp only [injectDate]
        rw [hinj, if_neg Bool.false_ne_true]
        simp only [hw, ho]
      have hanchorO : ∀ i ∈ List.range (s.length + 1),
          occursAt " order by ".data (lowStr s) i = true → p ≤ i := by
        intro i him hocc
        have hb := horder i him hocc
        omega
      have hanchorL : ∀ i ∈ List.range (s.length + 1),
          occursAt " limit ".data (lowStr s) i = true → p ≤ i := by
        intro i him hocc
        have hb := hlimit i him hocc
        omega
      have hanchorO2 : ∀ i ∈ List.range ((lowStr s).length + 1),
          occursAt " order by ".data (lowStr s) i = true → p ≤ i := by
        intro i him hocc
        exact hanchorO i (by rwa [length_lowStr] at him) hocc
      have hanchorL2 : ∀ i ∈ List.range ((lowStr s).length + 1),
          occursAt " limit ".data (lowStr s) i = true → p ≤ i := by
        intro i him hocc
        exact hanchorL i (by rwa [length_lowStr] at him) hocc
      have hnext : (' ' :: ([] : List Char)).isPrefixOf ((lowStr s).drop p) = true :=
        occursAt_of_prefix [' '] _ _ p (by decide) hoocc
      have hwcap : occCount "where".data (lowStr s)
          + occCount "where".data
            (lowStr " WHERE last_updated = CURRENT_DATE".data) ≤ 1 := by
        omega
      have hLTO2 := hLT_from_anchor " order by".data (lowStr s)
        (lowStr " WHERE last_updated = CURRENT_DATE".data) p 9 (by decide)
        (by decide) (by rw [length_lowStr]; omega) hnext hanchorO2
      have hLTL2 := hLT_from_anchor " limit".data (lowStr s)
        (lowStr " WHERE last_updated = CURRENT_DATE".data) p 6 (by decide)
        (by decide) (by rw [length_lowStr]; omega) hnext hanchorL2
      rcases hload with hOut | hOut
      · exact c3_core s out _ [] p 7
          (by rw [hOut, hID]; simp [List.append_assoc])
          (Or.inr ⟨rfl, rfl⟩) (Or.inl rfl) (by omega) ha6 hsel hsemi hpredlow
          hwcap hanchorO hanchorL hLTO2 hLTL2
      · exact c3_core s out _ (" LIMIT 25".data) p 7
          (by rw [hOut, hID]; simp [List.append_assoc])
          (Or.inr ⟨rfl, rfl⟩) (Or.inr rfl) (by omega) ha6 hsel hsemi hpredlow
          hwcap hanchorO hanchorL hLTO2 hLTL2
    | none =>
      cases hl : firstOccur " limit ".data (lowStr s) with
      | some p =>
        have hlocc := (firstOccur_some _ _ p hl).1
        have hple : p + 7 ≤ s.length := by
          have h := occursAt_le _ _ p (by decide) hlocc
          rw [length_lowStr] at h
          omega
        have ha6 : 6 ≤ p :=
          occ_space_ge_six "limit ".data (lowStr s) r p hr.symm hlocc
        have hA : injAnchor s = p := by
          simp [injAnchor, hw, ho, hl]
        have hID : injectDate s
            = s.take p ++ " WHERE last_updated = CURRENT_DATE".data ++ s.drop p := by
          simp only [injectDate]
          rw [hinj, if_neg Bool.false_ne_true]
          simp only [hw, ho, hl]
        have hanchorO : ∀ i ∈ List.range (s.length + 1),
            occursAt " order by ".data (lowStr s) i = true → p ≤ i := by
          intro i him hocc
          have hb := horder i him hocc
          omega
        have hanchorL : ∀ i ∈ List.range (s.length + 1),
            occursAt " limit ".data (lowStr s) i = true → p ≤ i := by
          intro i him hocc
          have hb := hlimit i him hocc
          omega
        have hanchorO2 : ∀ i ∈ List.range ((lowStr s).length + 1),
            occursAt " order by ".data (lowStr s) i = true → p ≤ i := by
          intro i him hocc
          exact hanchorO i (by rwa [length_lowStr] at him) hocc
        have hanchorL2 : ∀ i ∈ List.range ((lowStr s).length + 1),
            occursAt " limit ".data (lowStr s) i = true → p ≤ i := by
          intro i him hocc
          exact hanchorL i (by rwa [length_lowStr] at him) hocc
        have hnext : (' ' :: ([] : List Char)).isPrefixOf ((lowStr s).drop p) = true :=
          occursAt_of_prefix [' '] _ _ p (by decide) hlocc
        have hwcap : occCount "where".data (lowStr s)
            + occCount "where".data
              (lowStr " WHERE last_updated = CURRENT_DATE".data) ≤ 1 := by
          omega
        have hLTO2 := hLT_from_anchor " order by".data (lowStr s)
          (lowStr " WHERE last_updated = CURRENT_DATE".data) p 9 (by decide)
          (by decide) (by rw [length_lowStr]; omega) hnext hanchorO2
        have hLTL2 := hLT_from_anchor " limit".data (lowStr s)
          (lowStr " WHERE last_updated = CURRENT_DATE".data) p 6 (by decide)
          (by decide) (by rw [length_lowStr]; omega) hnext hanchorL2
        rcases hload with hOut | hOut
        · exact c3_core s out _ [] p 7
            (by rw [hOut, hID]; simp [List.append_assoc])
            (Or.inr ⟨rfl, rfl⟩) (Or.inl rfl) (by omega) ha6 hsel hsemi hpredlow
            hwcap hanchorO hanchorL hLTO2 hLTL2
        · exact c3_core s out _ (" LIMIT 25".data) p 7
            (by rw [hOut, hID]; simp [List.append_assoc])
            (Or.inr ⟨rfl, rfl⟩) (Or.inr rfl) (by omega) ha6 hsel hsemi hpredlow
            hwcap hanchorO hanchorL hLTO2 hLTL2
      | none =>
        have hA : injAnchor s = s.length := by
          simp [injAnchor, hw, ho, hl]
        have hID : injectDate s
            = s ++ " WHERE last_updated = CURRENT_DATE".data := by
          simp only [injectDate]
          rw [hinj, if_neg Bool.false_ne_true]
          simp only [hw, ho, hl]
        have hanchorO : ∀ i ∈ List.range (s.length + 1),
            occursAt " order by ".data (lowStr s) i = true → s.length ≤ i := by
          intro i him hocc
          have hb := horder i him hocc
          omega
        have hanchorL : ∀ i ∈ List.range (s.length + 1),
            occursAt " limit ".data (lowStr s) i = true → s.length ≤ i := by
          intro i him hocc
          have hb := hlimit i him hocc
          omega
        have hwcap : occCount "where".data (lowStr s)
            + occCount "where".data
              (lowStr " WHERE last_updated = CURRENT_DATE".data) ≤ 1 := by
          omega
        have hLTO4 := hLT_from_tail " order by".data (lowStr s)
          (lowStr " WHERE last_updated = CURRENT_DATE".data) s.length 9
          (by decide) (length_lowStr s).symm (by decide) htailO
        have hLTL4 := hLT_from_tail " limit".data (lowStr s)
          (lowStr " WHERE last_updated = CURRENT_DATE".data) s.length 6
          (by decide) (length_lowStr s).symm (by decide) htailL
        rcases hload with hOut | hOut
        · exact c3_core s out _ [] s.length 7
            (by rw [hOut, hID, List.take_length, List.drop_length]; simp)
            (Or.inr ⟨rfl, rfl⟩) (Or.inl rfl) (Nat.le_refl _) hsellen hsel hsemi
            hpredlow hwcap hanchorO hanchorL hLTO4 hLTL4
        · exact c3_core s out _ (" LIMIT 25".data) s.length 7
            (by rw [hOut, hID, List.take_length, List.drop_length]; simp)
            (Or.inr ⟨rfl, rfl⟩) (Or.inr rfl) (Nat.le_refl _) hsellen hsel hsemi
            hpredlow hwcap hanchorO hanchorL hLTO4 hLTL4

set_option maxHeartbeats 4000000 in
/-- Witness for the amended C3 at a concrete clause-shaped statement. -/
theorem claim_C3_witness :
    ∃ j, occursAt "last_updated = current_date".data (lowStr c3WitnessOut.data) j = true
      ∧ occCount "last_updated = current_date".data (lowStr c3WitnessOut.data) = 1
      ∧ (∀ i, occursAt " order by ".data (lowStr c3WitnessOut.data) i = true
          → j + 27 ≤ i)
      ∧ (∀ i, occursAt " limit ".data (lowStr c3WitnessOut.data) i = true
          → j + 27 ≤ i)
      ∧ singleSelectNecessary c3WitnessOut.data = true :=
  claim_C3_amended c3WitnessIn.data c3WitnessOut.data (by rfl) (by rfl)
    (by decide) (by decide) (by decide) (by decide) (by decide) (by decide)

end DiningBot